import Mathlib

/-!
# Bookmark manager: edit sessions, change tracking, typed accessors, cloud restore

A shallow embedding of `map/bookmark_manager.hpp`.

* The member templates whose bodies are in the header (`GetMark`, `CreateUserMark`,
  `GetMarkForEdit`, `DeleteUserMarks`) and the inline getters of `MarksChangesTracker`
  are translated from the header.
* The header only declares the other members; their bodies live in another translation
  unit.  Those are modelled from the design document; each such definition says so in
  its doc comment.

Conventions.  A failed `ASSERT` is fatal: operations that can hit one return `Option`,
and `none` is the failed assertion.  `ASSERT_THREAD_CHECKER` is taken to hold: the
embedding is sequential and every call is made by the owner thread.
-/

namespace BookmarkManager

/-! ## Identifier spaces -/

/-- Identifier of a mark, `df::MarkID`. -/
abbrev MarkID := Nat

/-- Identifier of a line (track), `df::LineID`. -/
abbrev LineID := Nat

/-- Identifier of a group (user-mark layer or bookmark category), `df::MarkGroupID`. -/
abbrev MarkGroupID := Nat

/-! ## Change tracker -/

/-- The accumulated sets of `MarksChangesTracker` (header lines 311-320); `df::MarkIDSet`,
`df::LineIDSet` and `df::GroupIDSet` are sets of identifiers. -/
structure MarksChangesTracker where
  m_createdMarks : Finset MarkID
  m_removedMarks : Finset MarkID
  m_updatedMarks : Finset MarkID
  m_createdLines : Finset LineID
  m_removedLines : Finset LineID
  m_dirtyGroups : Finset MarkGroupID
  m_createdGroups : Finset MarkGroupID
  m_removedGroups : Finset MarkGroupID
  deriving DecidableEq

namespace MarksChangesTracker

/-- A tracker as constructed (header line 278): every set is default-constructed, empty. -/
def init : MarksChangesTracker :=
  { m_createdMarks := ∅, m_removedMarks := ∅, m_updatedMarks := ∅,
    m_createdLines := ∅, m_removedLines := ∅,
    m_dirtyGroups := ∅, m_createdGroups := ∅, m_removedGroups := ∅ }

/-- Getter `GetDirtyGroupIds` (header line 295). -/
def GetDirtyGroupIds (t : MarksChangesTracker) : Finset MarkGroupID := t.m_dirtyGroups

/-- Getter `GetRemovedGroupIds` (header line 296). -/
def GetRemovedGroupIds (t : MarksChangesTracker) : Finset MarkGroupID := t.m_removedGroups

/-- Getter `GetCreatedMarkIds` (header line 297). -/
def GetCreatedMarkIds (t : MarksChangesTracker) : Finset MarkID := t.m_createdMarks

/-- Getter `GetRemovedMarkIds` (header line 298). -/
def GetRemovedMarkIds (t : MarksChangesTracker) : Finset MarkID := t.m_removedMarks

/-- Getter `GetUpdatedMarkIds` (header line 299). -/
def GetUpdatedMarkIds (t : MarksChangesTracker) : Finset MarkID := t.m_updatedMarks

/-- Getter `GetRemovedLineIds` (header line 300). -/
def GetRemovedLineIds (t : MarksChangesTracker) : Finset LineID := t.m_removedLines

/-- Modelled from the spec: the body of `MarksChangesTracker::OnAddMark` is not in the
header.  Design document, change tracker: a mutation call records "mark created", keyed
by the mark identifier. -/
def OnAddMark (t : MarksChangesTracker) (markId : MarkID) : MarksChangesTracker :=
  { t with m_createdMarks := insert markId t.m_createdMarks }

/-- Modelled from the spec: the body of `MarksChangesTracker::OnDeleteMark` is not in the
header.  Design document, change tracker: removed overrides created and updated; an
object created and removed in the same epoch produces no create event, and a removal
only if it was visible to the renderer before this epoch, otherwise nothing at all. -/
def OnDeleteMark (t : MarksChangesTracker) (markId : MarkID) : MarksChangesTracker :=
  if markId ∈ t.m_createdMarks then
    { t with m_createdMarks := t.m_createdMarks.erase markId,
             m_updatedMarks := t.m_updatedMarks.erase markId }
  else
    { t with m_updatedMarks := t.m_updatedMarks.erase markId,
             m_removedMarks := insert markId t.m_removedMarks }

/-- Modelled from the spec: the body of `MarksChangesTracker::OnUpdateMark` is not in the
header.  Design document, change tracker: a mutation call records "mark updated", keyed
by the mark identifier, at most once per identifier and epoch. -/
def OnUpdateMark (t : MarksChangesTracker) (markId : MarkID) : MarksChangesTracker :=
  { t with m_updatedMarks := insert markId t.m_updatedMarks }

/-- Modelled from the spec: the body of `MarksChangesTracker::OnAddLine` is not in the
header.  Records "line created". -/
def OnAddLine (t : MarksChangesTracker) (lineId : LineID) : MarksChangesTracker :=
  { t with m_createdLines := insert lineId t.m_createdLines }

/-- Modelled from the spec: the body of `MarksChangesTracker::OnDeleteLine` is not in the
header.  Design document: the precedence rule of marks applies to lines as well. -/
def OnDeleteLine (t : MarksChangesTracker) (lineId : LineID) : MarksChangesTracker :=
  if lineId ∈ t.m_createdLines then
    { t with m_createdLines := t.m_createdLines.erase lineId }
  else
    { t with m_removedLines := insert lineId t.m_removedLines }

/-- Modelled from the spec: the body of `MarksChangesTracker::OnAddGroup` is not in the
header.  Records "group created". -/
def OnAddGroup (t : MarksChangesTracker) (groupId : MarkGroupID) : MarksChangesTracker :=
  { t with m_createdGroups := insert groupId t.m_createdGroups }

/-- Modelled from the spec: the body of `MarksChangesTracker::OnDeleteGroup` is not in the
header.  Design document: the precedence rule of marks applies to groups
(dirty, created, removed) as well. -/
def OnDeleteGroup (t : MarksChangesTracker) (groupId : MarkGroupID) : MarksChangesTracker :=
  if groupId ∈ t.m_createdGroups then
    { t with m_createdGroups := t.m_createdGroups.erase groupId,
             m_dirtyGroups := t.m_dirtyGroups.erase groupId }
  else
    { t with m_dirtyGroups := t.m_dirtyGroups.erase groupId,
             m_removedGroups := insert groupId t.m_removedGroups }

/-- Modelled from the spec: the body of `MarksChangesTracker::CheckChanges` is not in the
header.  Design document: returns whether any accumulated record is non-empty. -/
def CheckChanges (t : MarksChangesTracker) : Bool :=
  !(decide (t.m_createdMarks = ∅) && decide (t.m_removedMarks = ∅)
    && decide (t.m_updatedMarks = ∅)
    && decide (t.m_createdLines = ∅) && decide (t.m_removedLines = ∅)
    && decide (t.m_dirtyGroups = ∅) && decide (t.m_createdGroups = ∅)
    && decide (t.m_removedGroups = ∅))

/-- Modelled from the spec: the body of `MarksChangesTracker::ResetChanges` is not in the
header.  Design document: clears all accumulated sets. -/
def ResetChanges (t : MarksChangesTracker) : MarksChangesTracker :=
  { t with m_createdMarks := ∅, m_removedMarks := ∅, m_updatedMarks := ∅,
           m_createdLines := ∅, m_removedLines := ∅,
           m_dirtyGroups := ∅, m_createdGroups := ∅, m_removedGroups := ∅ }

end MarksChangesTracker

/-- One call into the change tracker. -/
inductive TrackerCall where
  | addMark (markId : MarkID)
  | deleteMark (markId : MarkID)
  | updateMark (markId : MarkID)
  | addLine (lineId : LineID)
  | deleteLine (lineId : LineID)
  | addGroup (groupId : MarkGroupID)
  | deleteGroup (groupId : MarkGroupID)
  deriving DecidableEq

/-- Effect of one tracker call. -/
def TrackerCall.apply (t : MarksChangesTracker) : TrackerCall → MarksChangesTracker
  | .addMark i => t.OnAddMark i
  | .deleteMark i => t.OnDeleteMark i
  | .updateMark i => t.OnUpdateMark i
  | .addLine i => t.OnAddLine i
  | .deleteLine i => t.OnDeleteLine i
  | .addGroup g => t.OnAddGroup g
  | .deleteGroup g => t.OnDeleteGroup g

/-- Effect of a sequence of tracker calls, in order. -/
def recordCalls (t : MarksChangesTracker) (calls : List TrackerCall) : MarksChangesTracker :=
  calls.foldl TrackerCall.apply t

/-- What a tracker call does to one mark identifier. -/
inductive MarkStep where
  | add
  | update
  | delete
  deriving DecidableEq

/-- The step a call performs on mark `markId`, if it concerns that mark at all. -/
def TrackerCall.onMark (markId : MarkID) : TrackerCall → Option MarkStep
  | .addMark i => if i = markId then some .add else none
  | .updateMark i => if i = markId then some .update else none
  | .deleteMark i => if i = markId then some .delete else none
  | _ => none

/-- History of one mark inside a sequence of tracker calls. -/
def markHistory (markId : MarkID) (calls : List TrackerCall) : List MarkStep :=
  calls.filterMap (TrackerCall.onMark markId)

/-- Tag of a class of marks: what the template argument `UserMarkT` ranges over, and
the dynamic class of a stored object. -/
abbrev MarkClass := Nat

/-- A mark object as far as the manager looks at it: `GetId()`, `GetMarkType()` and the
dynamic class that `dynamic_cast` inspects.  Position and payload take no part in the
bookkeeping. -/
structure UserMark where
  m_id : MarkID
  m_type : Nat
  m_class : MarkClass
  deriving DecidableEq

/-- A bookmark: a mark that remembers the category it is attached to. -/
structure Bookmark extends UserMark where
  m_groupId : MarkGroupID
  deriving DecidableEq

/-- A track, with the category it is attached to. -/
structure Track where
  m_id : LineID
  m_groupId : MarkGroupID
  deriving DecidableEq

/-- Lookup in a `std::map` kept as a list of entries: the value stored under `key`. -/
def Store.find {β : Type} : List (Nat × β) → Nat → Option β
  | [], _ => none
  | e :: rest, key => if e.1 = key then some e.2 else Store.find rest key

/-- Number of entries under `key` as `std::map::count` reports it, 0 or 1. -/
def Store.count {β : Type} (s : List (Nat × β)) (key : Nat) : Nat :=
  match Store.find s key with
  | some _ => 1
  | none => 0

/-- Insertion `std::map::emplace`: no effect when the key is present. -/
def Store.emplace {β : Type} (s : List (Nat × β)) (key : Nat) (v : β) : List (Nat × β) :=
  match Store.find s key with
  | some _ => s
  | none => s ++ [(key, v)]

/-- Removal `std::map::erase` by key. -/
def Store.erase {β : Type} (s : List (Nat × β)) (key : Nat) : List (Nat × β) :=
  s.filter (fun e => decide (e.1 ≠ key))

/-- In-place change of the value stored under `key`. -/
def Store.modify {β : Type} (s : List (Nat × β)) (key : Nat) (f : β → β) :
    List (Nat × β) :=
  s.map (fun e => if e.1 = key then (e.1, f e.2) else e)

/-- Modelled from the spec: class `UserMarkLayer` is declared in another header.  Design
document, category (group): a visibility flag and the collections of mark identifiers and
track identifiers the group currently contains; a group is dirty when its contents or its
visibility changed since the last flush.  The collections are kept without duplicates; the
iteration order of the identifier sets is fixed by a comparator declared elsewhere and
nothing here depends on it. -/
structure UserMarkLayer where
  m_userMarks : List MarkID
  m_tracks : List LineID
  m_isVisible : Bool
  m_isDirty : Bool
  deriving DecidableEq

namespace UserMarkLayer

/-- Modelled from the spec: `UserMarkLayer::AttachUserMark` is declared elsewhere.  The
group now contains the mark; its contents changed. -/
def AttachUserMark (l : UserMarkLayer) (markId : MarkID) : UserMarkLayer :=
  { l with m_userMarks := if markId ∈ l.m_userMarks then l.m_userMarks
                          else markId :: l.m_userMarks,
           m_isDirty := true }

/-- Modelled from the spec: `UserMarkLayer::DetachUserMark` is declared elsewhere.  The
group no longer contains the mark; its contents changed. -/
def DetachUserMark (l : UserMarkLayer) (markId : MarkID) : UserMarkLayer :=
  { l with m_userMarks := l.m_userMarks.filter (fun i => decide (i ≠ markId)),
           m_isDirty := true }

/-- Modelled from the spec: `UserMarkLayer::AttachTrack` is declared elsewhere. -/
def AttachTrack (l : UserMarkLayer) (trackId : LineID) : UserMarkLayer :=
  { l with m_tracks := if trackId ∈ l.m_tracks then l.m_tracks else trackId :: l.m_tracks,
           m_isDirty := true }

/-- Modelled from the spec: `UserMarkLayer::DetachTrack` is declared elsewhere. -/
def DetachTrack (l : UserMarkLayer) (trackId : LineID) : UserMarkLayer :=
  { l with m_tracks := l.m_tracks.filter (fun i => decide (i ≠ trackId)),
           m_isDirty := true }

/-- Modelled from the spec: `UserMarkLayer::SetIsVisible` is declared elsewhere.  A change
of visibility makes the group dirty. -/
def SetIsVisible (l : UserMarkLayer) (visible : Bool) : UserMarkLayer :=
  if l.m_isVisible = visible then l
  else { l with m_isVisible := visible, m_isDirty := true }

/-- Modelled from the spec: `UserMarkLayer::IsEmpty` is declared elsewhere.  A group is
empty when it contains neither marks nor tracks. -/
def IsEmpty (l : UserMarkLayer) : Bool :=
  l.m_userMarks.isEmpty && l.m_tracks.isEmpty

/-- Modelled from the spec: `UserMarkLayer::ResetChanges` is declared elsewhere.  After a
flush the group has no pending delta. -/
def ResetChanges (l : UserMarkLayer) : UserMarkLayer :=
  { l with m_isDirty := false }

end UserMarkLayer

/-- Modelled from the spec: class `BookmarkCategory` is declared in another header.  Design
document, category: a group with a display name and a source file path that is unset
until the first save. -/
structure BookmarkCategory extends UserMarkLayer where
  m_name : String
  m_file : Option String
  deriving DecidableEq

/-- Phases of the cloud synchronization and restore state machine (design document,
cloud synchronization state machine). -/
inductive CloudPhase where
  | Idle
  | SynchronizationStarted
  | SynchronizationSucceeded
  | SynchronizationFailed
  | RestoreRequested
  | RestoreResultReady
  | FilesPrepared
  | RestoreDenied
  deriving DecidableEq

/-- A restored file that was downloaded and validated, waiting to be applied: its staging
path and the category it holds. -/
structure PreparedFile where
  m_path : String
  m_name : String
  m_isVisible : Bool
  deriving DecidableEq

/-- Modelled from the spec: the enumeration `kml::PredefinedColor` is declared in
`kml/types.hpp`; the header names its enumerator `Red` only, every other colour is kept by
its code. -/
inductive PredefinedColor where
  | Red
  | other (code : Nat)
  deriving DecidableEq

/-- The queue entry `BookmarkLoaderInfo` (header lines 461-469): a file name and the flag
telling whether the file is temporary, `false` unless given. -/
structure BookmarkLoaderInfo where
  m_filename : String
  m_isTemporaryFile : Bool := false
  deriving DecidableEq

/-- One invocation of a member of `AsyncLoadingCallbacks` (header lines 46-52): `m_onStarted`
and `m_onFinished` take no argument, `m_onFileError` and `m_onFileSuccess` take the file
path and a Boolean (the temporary-file flag of the entry). -/
inductive LoadingCallback where
  | onStarted
  | onFinished
  | onFileError (filePath : String) (isTemporaryFile : Bool)
  | onFileSuccess (filePath : String) (isTemporaryFile : Bool)
  deriving DecidableEq

/-- State of a `BookmarkManager`: the data members of the header that the operations
below read or write (header lines 431-476), the phase and staging area of the cloud
collaborator `m_bookmarkCloud`, and three logs of what the external collaborators were
asked to do: `rendererLog` holds the tracker view handed to the renderer at each
notification, oldest first; `saveLog` holds the groups whose file was written;
`loadingLog` holds the invocations of `m_asyncLoadingCallbacks`, oldest first. -/
structure Manager where
  m_changesTracker : MarksChangesTracker
  m_lastGroupID : MarkGroupID
  m_openedEditSessionsCount : Nat
  m_loadBookmarksFinished : Bool
  m_firstDrapeNotification : Bool
  m_categories : List (MarkGroupID × BookmarkCategory)
  m_lastEditedGroupId : MarkGroupID
  m_lastColor : PredefinedColor
  m_userMarkLayers : List UserMarkLayer
  m_userMarks : List (MarkID × UserMark)
  m_bookmarks : List (MarkID × Bookmark)
  m_tracks : List (LineID × Track)
  m_asyncLoadingInProgress : Bool
  m_bookmarkLoadingQueue : List BookmarkLoaderInfo
  m_cloudPhase : CloudPhase
  m_preparedFiles : List PreparedFile
  rendererLog : List MarksChangesTracker
  saveLog : Multiset MarkGroupID
  loadingLog : List LoadingCallback
  deriving DecidableEq

/-- State of a manager as its data members are initialised (header lines 431-476), before
the body of the constructor, which is in another translation unit, runs.  A member with a
default member initializer in the header has that value: `m_openedEditSessionsCount = 0`,
`m_loadBookmarksFinished = false`, `m_firstDrapeNotification = false`,
`m_lastEditedGroupId = df::kInvalidMarkGroupId`, `m_lastColor = kml::PredefinedColor::Red`,
`m_asyncLoadingInProgress = false`.  The containers and the tracker are default-constructed,
empty.  The constant `df::kInvalidMarkGroupId` is declared in another header and
`m_lastGroupID` has no initializer in the header; both enter as parameters. -/
def constructed (kInvalidMarkGroupId lastGroupID : MarkGroupID) : Manager :=
  { m_changesTracker := MarksChangesTracker.init,
    m_lastGroupID := lastGroupID,
    m_openedEditSessionsCount := 0,
    m_loadBookmarksFinished := false,
    m_firstDrapeNotification := false,
    m_categories := [],
    m_lastEditedGroupId := kInvalidMarkGroupId,
    m_lastColor := PredefinedColor.Red,
    m_userMarkLayers := [],
    m_userMarks := [],
    m_bookmarks := [],
    m_tracks := [],
    m_asyncLoadingInProgress := false,
    m_bookmarkLoadingQueue := [],
    m_cloudPhase := CloudPhase.Idle,
    m_preparedFiles := [],
    rendererLog := [],
    saveLog := 0,
    loadingLog := [] }

/-! ## Lookups -/

/-- Modelled from the spec: the body of `BookmarkManager::GetUserMark` is not in the
header.  Lookup of a mark by identifier in the entity store (marks, then bookmarks viewed
as marks); the null pointer, `none`, when the identifier is unknown. -/
def GetUserMark (m : Manager) (markId : MarkID) : Option UserMark :=
  match Store.find m.m_userMarks markId with
  | some mark => some mark
  | none => (Store.find m.m_bookmarks markId).map Bookmark.toUserMark

/-- Modelled from the spec: the body of `BookmarkManager::GetBookmark` is not in the
header.  Lookup of a bookmark by identifier; `none` is the not-found result. -/
def GetBookmark (m : Manager) (markId : MarkID) : Option Bookmark :=
  Store.find m.m_bookmarks markId

/-- Modelled from the spec: the body of `BookmarkManager::GetTrack` is not in the header.
Lookup of a track by identifier; `none` is the not-found result. -/
def GetTrack (m : Manager) (trackId : LineID) : Option Track :=
  Store.find m.m_tracks trackId

/-- Modelled from the spec: the body of `BookmarkManager::GetBmCategory` is not in the
header.  Lookup of a category by group identifier. -/
def GetBmCategory (m : Manager) (categoryId : MarkGroupID) : Option BookmarkCategory :=
  Store.find m.m_categories categoryId

/-- Modelled from the spec: the body of `BookmarkManager::GetGroup` is not in the header.
A group identifier below the number of user-mark layers names that layer
(`CreateUserMark` indexes `m_userMarkLayers` by it), any other one names a category. -/
def GetGroup (m : Manager) (groupId : MarkGroupID) : Option UserMarkLayer :=
  if groupId < m.m_userMarkLayers.length then m.m_userMarkLayers[groupId]?
  else (GetBmCategory m groupId).map BookmarkCategory.toUserMarkLayer

/-- Modelled from the spec: the body of `BookmarkManager::GetUserMarkIds` is not in the
header.  The mark identifiers the group currently contains; `none` for an unknown
group. -/
def GetUserMarkIds (m : Manager) (groupId : MarkGroupID) : Option (List MarkID) :=
  (GetGroup m groupId).map UserMarkLayer.m_userMarks

/-- Modelled from the spec: the body of `BookmarkManager::IsCategoryEmpty` is not in the
header.  Whether the category contains neither marks nor tracks; `none` for an unknown
category. -/
def IsCategoryEmpty (m : Manager) (categoryId : MarkGroupID) : Option Bool :=
  (GetBmCategory m categoryId).map (fun c => c.IsEmpty)

/-! ## Typed accessors and mark operations of the header -/

/-- The C++ `dynamic_cast<UserMarkT *>(mark)`: null for the null pointer and for an object
whose dynamic class is not `UserMarkT` or derived from it.  The class hierarchy is declared
in other headers and enters as the relation `derives`. -/
def dynamicCast (derives : MarkClass → MarkClass → Bool) (UserMarkT : MarkClass) :
    Option UserMark → Option UserMark
  | none => none
  | some mark => if derives mark.m_class UserMarkT then some mark else none

/-- Header lines 147-153, `GetMark<UserMarkT>(markId)`:
`mark = GetUserMark(markId); ASSERT(dynamic_cast<UserMarkT const *>(mark) != nullptr);`
`return static_cast<UserMarkT const *>(mark)`. -/
def GetMark (derives : MarkClass → MarkClass → Bool) (m : Manager) (UserMarkT : MarkClass)
    (markId : MarkID) : Option UserMark :=
  let mark := GetUserMark m markId
  if (dynamicCast derives UserMarkT mark).isSome then mark else none

/-- Change of one element of a vector, by index. -/
def modifyAt {α : Type} (f : α → α) : Nat → List α → List α
  | _, [] => []
  | 0, a :: l => f a :: l
  | n + 1, a :: l => a :: modifyAt f n l

/-- Header lines 323-337, `CreateUserMark<UserMarkT>(ptOrg)`.  The object built by
`std::make_unique<UserMarkT>(ptOrg)` enters as `mark` (its constructor, which assigns the
identifier and the mark type, is declared elsewhere).  The two assertions are
`ASSERT_EQUAL(m_userMarks.count(markId), 0)` and
`ASSERT_LESS(groupId, m_userMarkLayers.size())`; then the mark is emplaced, recorded as
created and attached to the layer `groupId`.  The result is the mark and the new state. -/
def CreateUserMark (m : Manager) (mark : UserMark) : Option (UserMark × Manager) :=
  let markId := mark.m_id
  let groupId : MarkGroupID := mark.m_type
  if Store.count m.m_userMarks markId ≠ 0 then none
  else if ¬ groupId < m.m_userMarkLayers.length then none
  else
    some (mark,
      { m with
        m_userMarks := Store.emplace m.m_userMarks markId mark,
        m_changesTracker := m.m_changesTracker.OnAddMark markId,
        m_userMarkLayers :=
          modifyAt (fun l => l.AttachUserMark markId) groupId m.m_userMarkLayers })

/-- Modelled from the spec: the body of `BookmarkManager::GetUserMarkForEdit` is not in
the header.  Lookup of a mark for mutation: a found mark is recorded as updated in the
change tracker; the null pointer, `none`, with the state unchanged when the identifier is
unknown. -/
def GetUserMarkForEdit (m : Manager) (markId : MarkID) : Option UserMark × Manager :=
  match GetUserMark m markId with
  | some mark =>
      (some mark, { m with m_changesTracker := m.m_changesTracker.OnUpdateMark markId })
  | none => (none, m)

/-- Header lines 339-346, `GetMarkForEdit<UserMarkT>(markId)`:
`mark = GetUserMarkForEdit(markId); ASSERT(dynamic_cast<UserMarkT *>(mark) != nullptr);`
`return static_cast<UserMarkT *>(mark)`.  The result is the mark and the state left by
`GetUserMarkForEdit`. -/
def GetMarkForEdit (derives : MarkClass → MarkClass → Bool) (m : Manager)
    (UserMarkT : MarkClass) (markId : MarkID) : Option (UserMark × Manager) :=
  let r := GetUserMarkForEdit m markId
  match dynamicCast derives UserMarkT r.1 with
  | some mark => some (mark, r.2)
  | none => none

/-- Modelled from the spec: the body of `BookmarkManager::DeleteUserMark` is not in the
header.  The mark leaves the layer that contains it, its removal is recorded in the change
tracker and it leaves the entity store; an unknown identifier is a fatal contract error. -/
def DeleteUserMark (m : Manager) (markId : MarkID) : Option Manager :=
  match Store.find m.m_userMarks markId with
  | none => none
  | some mark =>
      some { m with
        m_userMarkLayers :=
          modifyAt (fun l => l.DetachUserMark markId) mark.m_type m.m_userMarkLayers,
        m_changesTracker := m.m_changesTracker.OnDeleteMark markId,
        m_userMarks := Store.erase m.m_userMarks markId }

/-- First loop of `DeleteUserMarks` (header lines 353-357): walks the identifiers of the
group and appends to `marksToDelete` those whose mark satisfies the predicate; a failed
assertion inside `GetMark` aborts. -/
def collectMarksToDelete (derives : MarkClass → MarkClass → Bool) (m : Manager)
    (UserMarkT : MarkClass) (deletePredicate : UserMark → Bool) :
    List MarkID → List MarkID → Option (List MarkID)
  | [], marksToDelete => some marksToDelete
  | markId :: rest, marksToDelete =>
      match GetMark derives m UserMarkT markId with
      | none => none
      | some mark =>
          collectMarksToDelete derives m UserMarkT deletePredicate rest
            (if deletePredicate mark then marksToDelete ++ [markId] else marksToDelete)

/-- Second loop of `DeleteUserMarks` (header lines 359-360): `DeleteUserMark` on every
collected identifier, in order. -/
def deleteCollected : Manager → List MarkID → Option Manager
  | m, [] => some m
  | m, markId :: rest =>
      match DeleteUserMark m markId with
      | none => none
      | some m1 => deleteCollected m1 rest

/-- Header lines 348-361, `DeleteUserMarks<UserMarkT>(type, deletePredicate)`: collect
first, delete after iterating. -/
def DeleteUserMarks (derives : MarkClass → MarkClass → Bool) (m : Manager)
    (UserMarkT : MarkClass) (type : Nat) (deletePredicate : UserMark → Bool) :
    Option Manager :=
  match GetUserMarkIds m type with
  | none => none
  | some ids =>
      match collectMarksToDelete derives m UserMarkT deletePredicate ids [] with
      | none => none
      | some marksToDelete => deleteCollected m marksToDelete

/-! ## Bookmarks, tracks and categories -/

/-- Modelled from the spec: the body of `BookmarkManager::CreateBookmark(bm, groupId)` is
not in the header.  The new bookmark (built by a constructor declared elsewhere, entering
as `bm`) joins the entity store, is recorded as created and is attached to the category
`groupId`, whose contents thereby change.  A used identifier and an unknown category are
fatal contract errors. -/
def CreateBookmark (m : Manager) (bm : UserMark) (groupId : MarkGroupID) :
    Option (Bookmark × Manager) :=
  if Store.count m.m_bookmarks bm.m_id ≠ 0 then none
  else
    match GetBmCategory m groupId with
    | none => none
    | some _ =>
        let bookmark : Bookmark := { toUserMark := bm, m_groupId := groupId }
        some (bookmark,
          { m with
            m_bookmarks := Store.emplace m.m_bookmarks bm.m_id bookmark,
            m_changesTracker := m.m_changesTracker.OnAddMark bm.m_id,
            m_categories := Store.modify m.m_categories groupId
              (fun c => { c with toUserMarkLayer := c.toUserMarkLayer.AttachUserMark bm.m_id }) })

/-- Deletion of one bookmark of a group that is being cleared: recorded as removed in the
change tracker, erased from the entity store. -/
def dropBookmark (m : Manager) (markId : MarkID) : Manager :=
  { m with
    m_changesTracker := m.m_changesTracker.OnDeleteMark markId,
    m_bookmarks := Store.erase m.m_bookmarks markId }

/-- Deletion of one track of a group that is being cleared: recorded as removed in the
change tracker, erased from the entity store. -/
def dropTrack (m : Manager) (trackId : LineID) : Manager :=
  { m with
    m_changesTracker := m.m_changesTracker.OnDeleteLine trackId,
    m_tracks := Store.erase m.m_tracks trackId }

/-- Modelled from the spec: the body of `BookmarkManager::ClearGroup` is not in the header.
For a bookmark category: every bookmark and every track the category contains is deleted,
and the category is left empty (its contents changed).  An unknown category is a fatal
contract error. -/
def ClearGroup (m : Manager) (groupId : MarkGroupID) : Option Manager :=
  match GetBmCategory m groupId with
  | none => none
  | some category =>
      let m1 := category.m_userMarks.foldl dropBookmark m
      let m2 := category.m_tracks.foldl dropTrack m1
      some { m2 with
        m_categories := Store.modify m2.m_categories groupId
          (fun c => { c with m_userMarks := [], m_tracks := [], m_isDirty := true }) }

/-- Modelled from the spec: the body of `BookmarkManager::DeleteBmCategory` is not in the
header.  Returns `false` and changes nothing for an unknown category; otherwise clears the
category (deleting its bookmarks and tracks), records the group as removed and erases the
category, returning `true`. -/
def DeleteBmCategory (m : Manager) (groupId : MarkGroupID) : Bool × Manager :=
  match ClearGroup m groupId with
  | none => (false, m)
  | some m1 =>
      (true,
        { m1 with
          m_changesTracker := m1.m_changesTracker.OnDeleteGroup groupId,
          m_categories := Store.erase m1.m_categories groupId })

/-! ## Edit sessions and the flush -/

/-- Identifiers of the dirty layers of a vector of layers; a layer's group identifier is
its index, counted from `first`. -/
def dirtyLayerIds (first : Nat) : List UserMarkLayer → List MarkGroupID
  | [] => []
  | l :: rest =>
      if l.m_isDirty then first :: dirtyLayerIds (first + 1) rest
      else dirtyLayerIds (first + 1) rest

/-- Modelled from the spec: the body of `BookmarkManager::CollectDirtyGroups` is not in
the header.  Adds to `dirtyGroups` every group (layer or category) whose membership or
visibility changed since the last flush. -/
def CollectDirtyGroups (m : Manager) (dirtyGroups : Finset MarkGroupID) :
    Finset MarkGroupID :=
  dirtyGroups ∪ (dirtyLayerIds 0 m.m_userMarkLayers).toFinset
    ∪ ((m.m_categories.filter (fun e => e.2.m_isDirty)).map Prod.fst).toFinset

/-- Modelled from the spec: `GenerateUniqueFileName` and the file system are external.
The file name a category gets at its first save; uniqueness against the directory
contents is not modelled. -/
def firstFileName (c : BookmarkCategory) : String :=
  c.m_name ++ ".kml"

/-- Modelled from the spec: step (4) of the flush.  The dirty categories that are
persisted: those whose source file already exists or whose contents are non-empty. -/
def categoriesToSave (m : Manager) (dirtyGroups : Finset MarkGroupID) :
    Finset MarkGroupID :=
  dirtyGroups.filter (fun g =>
    (match GetBmCategory m g with
     | some c => c.m_file.isSome || !c.IsEmpty
     | none => false) = true)

/-- Modelled from the spec: the body of `BookmarkManager::NotifyChanges` is not in the
header.  Design document, edit session, the five steps performed in order when the
counter reaches zero: (1) ask the change tracker whether any change was recorded; (2) if
so, recompute the set of dirty groups; (3) deliver the diff view to the renderer; (4)
persist every dirty category whose source file already exists or whose contents are
non-empty (the first save allocates a file name); (5) reset the change tracker.  The
groups reported dirty have no pending delta afterwards. -/
def NotifyChanges (m : Manager) : Manager :=
  let tracker :=
    if m.m_changesTracker.CheckChanges then
      { m.m_changesTracker with
        m_dirtyGroups := CollectDirtyGroups m m.m_changesTracker.m_dirtyGroups }
    else m.m_changesTracker
  let toSave := categoriesToSave m tracker.m_dirtyGroups
  { m with
    rendererLog := m.rendererLog ++ [tracker],
    saveLog := m.saveLog + toSave.val,
    m_categories := m.m_categories.map (fun e =>
      (e.1,
        { e.2 with
          m_file := if e.1 ∈ toSave then some (e.2.m_file.getD (firstFileName e.2))
                    else e.2.m_file,
          m_isDirty := if e.1 ∈ tracker.m_dirtyGroups then false else e.2.m_isDirty })),
    m_userMarkLayers := (List.range m.m_userMarkLayers.length).zipWith
      (fun i l => if i ∈ tracker.m_dirtyGroups then l.ResetChanges else l)
      m.m_userMarkLayers,
    m_changesTracker := tracker.ResetChanges }

/-- Modelled from the spec: the body of `BookmarkManager::OnEditSessionOpened` (run by the
constructor of `EditSession`) is not in the header.  `Begin()` increments the re-entrancy
counter.  The counter is a `size_t`; every unit of it is a live `EditSession` object, which
holds a reference to the manager, so it stays far below the range of `size_t` and is kept
as a natural number. -/
def OnEditSessionOpened (m : Manager) : Manager :=
  { m with m_openedEditSessionsCount := m.m_openedEditSessionsCount + 1 }

/-- Modelled from the spec: the body of `BookmarkManager::OnEditSessionClosed` (run by the
destructor of `EditSession`) is not in the header.  `End()` decrements the counter and,
when it reaches zero, performs the flush.  A close with the counter at zero has no
`EditSession` object behind it and is a contract error, `none`. -/
def OnEditSessionClosed (m : Manager) : Option Manager :=
  if m.m_openedEditSessionsCount = 0 then none
  else
    let m1 := { m with m_openedEditSessionsCount := m.m_openedEditSessionsCount - 1 }
    if m1.m_openedEditSessionsCount = 0 then some (NotifyChanges m1) else some m1

/-- What happens to the manager between flushes, as far as the batching of notifications
is concerned: a session is opened, a session is closed, or a mutation operation runs,
seen through the call it makes into the change tracker. -/
inductive SessionEvent where
  | opened
  | closed
  | mutation (call : TrackerCall)
  deriving DecidableEq

/-- One event applied to the manager. -/
def SessionEvent.step (m : Manager) : SessionEvent → Option Manager
  | .opened => some (OnEditSessionOpened m)
  | .closed => OnEditSessionClosed m
  | .mutation call =>
      some { m with m_changesTracker := call.apply m.m_changesTracker }

/-- A sequence of events applied to the manager, in order. -/
def runSession : Manager → List SessionEvent → Option Manager
  | m, [] => some m
  | m, e :: rest =>
      match e.step m with
      | none => none
      | some m1 => runSession m1 rest

/-- The tracker calls made by a sequence of events. -/
def mutationsOf : List SessionEvent → List TrackerCall
  | [] => []
  | .mutation call :: rest => call :: mutationsOf rest
  | _ :: rest => mutationsOf rest

/-- Well-nestedness of the openings and closings of a sequence of events that starts at
relative depth `depth`: no close without a matching earlier opening (beyond `depth`), and
every opening closed at the end. -/
def wellNested : Nat → List SessionEvent → Bool
  | depth, [] => decide (depth = 0)
  | depth, .opened :: rest => wellNested (depth + 1) rest
  | 0, .closed :: _ => false
  | depth + 1, .closed :: rest => wellNested depth rest
  | depth, .mutation _ :: rest => wellNested depth rest

/-! ## Cloud restore -/

/-- A prepared file loaded as a new category: empty until its contents are merged. -/
def PreparedFile.toCategory (f : PreparedFile) : BookmarkCategory :=
  { m_userMarks := [], m_tracks := [], m_isVisible := f.m_isVisible, m_isDirty := true,
    m_name := f.m_name, m_file := none }

/-- Loading of prepared files as new categories, each under a newly allocated group
identifier (identifiers grow monotonically and are never reused). -/
def loadPrepared : Manager → List PreparedFile → Manager
  | m, [] => m
  | m, f :: rest =>
      let groupId := m.m_lastGroupID + 1
      loadPrepared
        { m with
          m_lastGroupID := groupId,
          m_categories := Store.emplace m.m_categories groupId f.toCategory } rest

/-- Modelled from the spec: the body of `BookmarkManager::ApplyCloudRestoring` and the
class `Cloud` are not in the header.  Design document, cloud state machine: the call is
only valid from `FilesPrepared`; there it clears the existing categories, loads the
prepared files as new categories, deletes the staging files and returns to `Idle`.  From
any other phase the call is rejected and nothing changes.  The Boolean tells whether the
call was accepted. -/
def ApplyCloudRestoring (m : Manager) : Bool × Manager :=
  if m.m_cloudPhase = CloudPhase.FilesPrepared then
    (true,
      { loadPrepared { m with m_categories := [], m_bookmarks := [], m_tracks := [] }
          m.m_preparedFiles with
        m_preparedFiles := [],
        m_cloudPhase := CloudPhase.Idle })
  else (false, m)

/-! ## Asynchronous loading pipeline -/

/-- Modelled from the spec: the body of `BookmarkManager::LoadBookmark` is not in the
header.  Design document, async loading pipeline: the request is appended to the ordered
queue; the "started" callback fires when the queue goes from empty and idle to non-empty.
The entry being loaded stays at the head of `m_bookmarkLoadingQueue` until its result is
delivered on the owner thread. -/
def LoadBookmark (m : Manager) (filePath : String) (isTemporaryFile : Bool) : Manager :=
  let m1 :=
    if m.m_bookmarkLoadingQueue.isEmpty && !m.m_asyncLoadingInProgress then
      { m with
        m_asyncLoadingInProgress := true,
        loadingLog := m.loadingLog ++ [LoadingCallback.onStarted] }
    else m
  { m1 with
    m_bookmarkLoadingQueue := m1.m_bookmarkLoadingQueue ++
      [{ m_filename := filePath, m_isTemporaryFile := isTemporaryFile }] }

/-- The per-file callback for an entry: `m_onFileSuccess` or `m_onFileError` with the file
name and the temporary-file flag. -/
def fileCallback (info : BookmarkLoaderInfo) (success : Bool) : LoadingCallback :=
  if success then LoadingCallback.onFileSuccess info.m_filename info.m_isTemporaryFile
  else LoadingCallback.onFileError info.m_filename info.m_isTemporaryFile

/-- Modelled from the spec: `NotifyAboutFile`, `NotifyAboutFinishAsyncLoading` and
`LoadBookmarkRoutine` are only declared in the header.  Design document, async loading
pipeline: the worker takes the entries in FIFO order, one load at a time, and the result of
a load comes back to the owner thread as a callback carrying success or failure; the
"finished" callback fires when the queue has drained to empty.  This is the owner-thread
step for the entry at the head of the queue; `none` when no load is under way.  The merge
of a loaded payload into the entity store runs in an edit session of its own and touches
neither the queue nor the callbacks; it is left out. -/
def OnFileLoaded (m : Manager) (success : Bool) : Option Manager :=
  match m.m_bookmarkLoadingQueue with
  | [] => none
  | info :: rest =>
      let m1 := { m with
        m_bookmarkLoadingQueue := rest,
        loadingLog := m.loadingLog ++ [fileCallback info success] }
      if rest.isEmpty then
        some { m1 with
          m_asyncLoadingInProgress := false,
          loadingLog := m1.loadingLog ++ [LoadingCallback.onFinished] }
      else some m1

/-- What happens to the loading pipeline: a file is enqueued, or the load of the entry at
the head of the queue comes back with success or failure. -/
inductive LoadingEvent where
  | enqueue (filePath : String) (isTemporaryFile : Bool)
  | loaded (success : Bool)
  deriving DecidableEq

/-- One event applied to the manager. -/
def LoadingEvent.step (m : Manager) : LoadingEvent → Option Manager
  | .enqueue filePath isTemporaryFile => some (LoadBookmark m filePath isTemporaryFile)
  | .loaded success => OnFileLoaded m success

/-- A sequence of loading events applied to the manager, in order. -/
def runLoading : Manager → List LoadingEvent → Option Manager
  | m, [] => some m
  | m, e :: rest =>
      match e.step m with
      | none => none
      | some m1 => runLoading m1 rest

/-- The entries enqueued by a sequence of events, in order. -/
def enqueuedBy : List LoadingEvent → List BookmarkLoaderInfo
  | [] => []
  | .enqueue filePath isTemporaryFile :: rest =>
      { m_filename := filePath, m_isTemporaryFile := isTemporaryFile } :: enqueuedBy rest
  | .loaded _ :: rest => enqueuedBy rest

/-- The results delivered by a sequence of events, in order. -/
def resultsOf : List LoadingEvent → List Bool
  | [] => []
  | .enqueue _ _ :: rest => resultsOf rest
  | .loaded success :: rest => success :: resultsOf rest

/-- A sequence of events that drains a queue of `pending` entries: every enqueue comes while
entries are pending (the queue is draining), every result is that of a pending entry, and
nothing follows the result that empties the queue. -/
def drains : Nat → List LoadingEvent → Bool
  | 0, [] => true
  | 0, _ :: _ => false
  | _ + 1, [] => false
  | pending + 1, .enqueue _ _ :: rest => drains (pending + 2) rest
  | pending + 1, .loaded _ :: rest => drains pending rest

/-! ## Auxiliary notions for the proofs -/

/-- Where one mark stands in the tracker: in the created set, in the removed set, in the
updated set. -/
def markStatus (t : MarksChangesTracker) (markId : MarkID) : Bool × Bool × Bool :=
  (decide (markId ∈ t.m_createdMarks), decide (markId ∈ t.m_removedMarks),
    decide (markId ∈ t.m_updatedMarks))

/-- How one step on a mark moves its status. -/
def MarkStep.next : Bool × Bool × Bool → MarkStep → Bool × Bool × Bool
  | (_, r, u), .add => (true, r, u)
  | (c, r, _), .update => (c, r, true)
  | (c, r, _), .delete => (false, r || !c, false)

/-- History of a mark that is updated any number of times and then deleted. -/
def updatedThenDeleted : List MarkStep → Bool
  | [MarkStep.delete] => true
  | MarkStep.update :: rest => updatedThenDeleted rest
  | _ => false

/-- History of a mark that is created, possibly updated, and then deleted. -/
def createdThenDeleted : List MarkStep → Bool
  | MarkStep.add :: rest => updatedThenDeleted rest
  | _ => false

/-- A manager without marks, groups or pending changes, between sessions; concrete states
are built from it. -/
def blank : Manager :=
  constructed 4294967295 0

/-- A user-mark layer without marks. -/
def emptyLayer : UserMarkLayer :=
  { m_userMarks := [], m_tracks := [], m_isVisible := true, m_isDirty := false }

/-- A manager with two empty user-mark layers, between sessions (counter zero). -/
def twoLayers : Manager :=
  { blank with m_userMarkLayers := [emptyLayer, emptyLayer] }

/-- A manager with two layers that stores one mark of class 3 and type 0 under
identifier 1. -/
def oneMark : Manager :=
  { blank with
    m_userMarkLayers := [{ emptyLayer with m_userMarks := [1] }, emptyLayer],
    m_userMarks := [(1, { m_id := 1, m_type := 0, m_class := 3 })] }

/-- A class relation for concrete states: every class derives from itself and from
class 0. -/
def derivesFromRoot (c base : MarkClass) : Bool :=
  c == base || base == 0

/-- The category "Trip" holding bookmarks 100 and 101 and track 200, saved before. -/
def tripCategory : BookmarkCategory :=
  { m_userMarks := [100, 101], m_tracks := [200], m_isVisible := true, m_isDirty := false,
    m_name := "Trip", m_file := some "Trip.kml" }

/-- A manager between sessions whose only category is "Trip", group 7, with its two
bookmarks and its track in the entity store. -/
def tripManager : Manager :=
  { blank with
    m_lastGroupID := 7,
    m_categories := [(7, tripCategory)],
    m_bookmarks :=
      [(100, { m_id := 100, m_type := 0, m_class := 1, m_groupId := 7 }),
       (101, { m_id := 101, m_type := 0, m_class := 1, m_groupId := 7 })],
    m_tracks := [(200, { m_id := 200, m_groupId := 7 })] }

/-- The category "Trip" just created: empty, never saved. -/
def emptyTrip : BookmarkCategory :=
  { m_userMarks := [], m_tracks := [], m_isVisible := true, m_isDirty := false,
    m_name := "Trip", m_file := none }

/-- A manager between sessions whose only category is the empty "Trip", group 7. -/
def emptyTripManager : Manager :=
  { blank with m_lastGroupID := 7, m_categories := [(7, emptyTrip)] }

/-- Whether the mark stored under `markId` is seen as a `UserMarkT` by `GetMark` and
satisfies the predicate. -/
def markSatisfies (derives : MarkClass → MarkClass → Bool) (m : Manager)
    (UserMarkT : MarkClass) (deletePredicate : UserMark → Bool) (markId : MarkID) : Bool :=
  match GetMark derives m UserMarkT markId with
  | some mark => deletePredicate mark
  | none => false

/-- A manager with two layers; layer 0 holds the marks 3, 2 and 1, all of class 3 and
type 0, in that iteration order. -/
def threeMarks : Manager :=
  { blank with
    m_userMarkLayers := [{ emptyLayer with m_userMarks := [3, 2, 1] }, emptyLayer],
    m_userMarks :=
      [(1, { m_id := 1, m_type := 0, m_class := 3 }),
       (2, { m_id := 2, m_type := 0, m_class := 3 }),
       (3, { m_id := 3, m_type := 0, m_class := 3 })] }

end BookmarkManager

/-! # Opening hours: `osmoh::Time`

A shallow embedding of the `Time` part of `3party/opening_hours/osm_time_range.cpp`
(lines 35-198).  The class itself is declared in a header of its own; what the functions
below need of it is stated with each definition.

Durations.  `THours` and `TMinutes` are `std::chrono::hours` and `std::chrono::minutes`;
a duration is kept as its count, an integer.  `m_duration` counts minutes.  The
conversions used (`duration_cast` to hours, hours back to minutes, negation of a
difference with zero) never leave the range of a count that holds `m_duration`, so
counts are unbounded integers here.
-/

namespace osmoh

/-- The enumeration `Time::EEvent`, with the enumerators the `switch` of lines 136-153
names. -/
inductive EEvent where
  | eNotEvent
  | eSunrise
  | eSunset
  | eDawn
  | eDusk
  deriving DecidableEq

/-- Modelled from the spec: the enumeration `Time::EState` is declared in the header of the
class.  `eIsNotTime` is the empty set of flags. -/
def eIsNotTime : Nat := 0

/-- Modelled from the spec: the enumeration `Time::EState` is declared in the header of the
class.  `eHaveHours` and `eHaveMinutes` are two flags, distinct bits of `m_state`. -/
def eHaveHours : Nat := 1

/-- Modelled from the spec: the enumeration `Time::EState` is declared in the header of the
class.  `eHaveHours` and `eHaveMinutes` are two flags, distinct bits of `m_state`. -/
def eHaveMinutes : Nat := 2

/-- The data members of `Time` that the functions of lines 35-198 read and write: the
event, the duration in minutes and the state flags. -/
structure Time where
  m_event : EEvent
  m_duration : Int
  m_state : Nat
  deriving DecidableEq

namespace Time

/-- Modelled from the spec: the default member initializers of `Time` are in the header of
the class.  A default-constructed `Time` (`Time{}`, what `GetEventTime` returns by
`return {}`) has no event, a zero duration and no state flag. -/
def defaultConstructed : Time :=
  { m_event := EEvent.eNotEvent, m_duration := 0, m_state := eIsNotTime }

/-- Lines 85-88, `SetEvent`. -/
def SetEvent (t : Time) (event : EEvent) : Time :=
  { t with m_event := event }

/-- The inline getter `GetEvent` used at line 182. -/
def GetEvent (t : Time) : EEvent := t.m_event

/-- Lines 90-93, `IsEvent`: `m_event != EEvent::eNotEvent`. -/
def IsEvent (t : Time) : Bool :=
  decide (t.m_event ≠ EEvent.eNotEvent)

/-- Lines 95-98, `IsEventOffset`: `IsEvent() && m_state != eIsNotTime`. -/
def IsEventOffset (t : Time) : Bool :=
  t.IsEvent && decide (t.m_state ≠ eIsNotTime)

/-- Lines 100-103, `IsHoursMinutes`: `!IsEvent() && (m_state & (eHaveHours | eHaveMinutes))`. -/
def IsHoursMinutes (t : Time) : Bool :=
  !t.IsEvent && decide (t.m_state &&& (eHaveHours ||| eHaveMinutes) ≠ 0)

/-- Lines 105-108, `IsMinutes`:
`!IsEvent() && ((m_state & eHaveMinutes) && !(m_state & eHaveHours))`. -/
def IsMinutes (t : Time) : Bool :=
  !t.IsEvent
    && (decide (t.m_state &&& eHaveMinutes ≠ 0) && !decide (t.m_state &&& eHaveHours ≠ 0))

/-- Lines 110-113, `IsTime`: `IsHoursMinutes() || IsEvent()`. -/
def IsTime (t : Time) : Bool :=
  t.IsHoursMinutes || t.IsEvent

/-- Lines 115-118, `HasValue`: `IsEvent() || IsTime() || IsMinutes()`. -/
def HasValue (t : Time) : Bool :=
  t.IsEvent || t.IsTime || t.IsMinutes

/-- Lines 71-75, `SetHours`: `m_state |= eHaveHours | eHaveMinutes; m_duration += hours`. -/
def SetHours (t : Time) (hours : Int) : Time :=
  { t with
    m_state := t.m_state ||| (eHaveHours ||| eHaveMinutes),
    m_duration := t.m_duration + 60 * hours }

/-- Lines 77-83, `SetMinutes`: `m_state |= eHaveMinutes;`
`if (minutes > THours(1)) m_state |= eHaveHours; m_duration += minutes`. -/
def SetMinutes (t : Time) (minutes : Int) : Time :=
  let state1 := t.m_state ||| eHaveMinutes
  let state2 := if minutes > 60 * 1 then state1 ||| eHaveHours else state1
  { t with m_state := state2, m_duration := t.m_duration + minutes }

/-- Lines 35-38, the constructor `Time(TMinutes minutes)`: `SetMinutes(minutes)` on the
default-initialised members. -/
def ofMinutes (minutes : Int) : Time :=
  defaultConstructed.SetMinutes minutes

/-- Lines 120-124, the binary `operator-`: `m_duration -= time.m_duration; return *this`.
The result is the left operand after the subtraction. -/
def sub (t time : Time) : Time :=
  { t with m_duration := t.m_duration - time.m_duration }

/-- Lines 126-130, the unary `operator-`: `m_duration = -m_duration; return *this`. -/
def neg (t : Time) : Time :=
  { t with m_duration := -t.m_duration }

/-- Line 132, `GetEventTime`: `return {}`. -/
def GetEventTime (_t : Time) : Time :=
  defaultConstructed

/-- Lines 53-60, `GetHours`, as a count of hours.  `duration_cast<THours>` truncates
toward zero.  The function calls itself on the result of `GetEventTime`, which is no
event, so the recursion ends after one step. -/
def GetHours (t : Time) : Int :=
  if h : t.IsEvent = true then
    (t.GetEventTime).GetHours
  else if h2 : t.IsEventOffset = true then
    (t.GetEventTime.sub t).GetHours
  else
    t.m_duration.tdiv 60
termination_by (if t.IsEvent = true then 1 else 0)
decreasing_by
  · have hne : t.m_event ≠ EEvent.eNotEvent := by simpa [IsEvent] using h
    simp [GetEventTime, defaultConstructed, IsEvent, hne]
  · simp [IsEventOffset, h] at h2

/-- Lines 62-69, `GetMinutes`, as a count of minutes:
`duration_cast<TMinutes>(m_duration) - GetHours()` in the last branch, the hours converted
to minutes. -/
def GetMinutes (t : Time) : Int :=
  if h : t.IsEvent = true then
    (t.GetEventTime).GetMinutes
  else if h2 : t.IsEventOffset = true then
    (t.GetEventTime.sub t).GetMinutes
  else
    t.m_duration - 60 * t.GetHours
termination_by (if t.IsEvent = true then 1 else 0)
decreasing_by
  · have hne : t.m_event ≠ EEvent.eNotEvent := by simpa [IsEvent] using h
    simp [GetEventTime, defaultConstructed, IsEvent, hne]
  · simp [IsEventOffset, h] at h2

/-- Lines 43-46, `GetHoursCount`: `GetHours().count()`. -/
def GetHoursCount (t : Time) : Int := t.GetHours

/-- Lines 48-51, `GetMinutesCount`: `GetMinutes().count()`. -/
def GetMinutesCount (t : Time) : Int := t.GetMinutes

end Time

/-- Lines 134-155, `operator<<` for an event: the text written. -/
def writeEvent : EEvent → String
  | EEvent.eNotEvent => "NotEvent"
  | EEvent.eSunrise => "sunrise"
  | EEvent.eSunset => "sunset"
  | EEvent.eDawn => "dawn"
  | EEvent.eDusk => "dusk"

/-- Text written for a non-negative integer after `std::setw(2)` and `std::setfill('0')`
(decimal, right-adjusted): its digits, with zeros in front up to width 2. -/
def writeWidth2 (n : Nat) : String :=
  "".pushn '0' (2 - (Nat.repr n).length) ++ Nat.repr n

/-- Text written for an integer by `ost << hours` with no width set: its decimal digits,
with a minus sign in front when it is negative. -/
def writeInt (n : Int) : String :=
  if n < 0 then "-" ++ Nat.repr n.natAbs else Nat.repr n.natAbs

/-- Lines 157-198, `operator<<` for a `Time`: the text written to a stream that is in its
default format state on entry (decimal, no pending width).  `std::setw` holds for the next
item only, the fill character stays; `std::abs` is `Int.natAbs`. -/
def writeTime (time : Time) : String :=
  if !time.IsTime && !time.IsEvent then
    "hh:mm"
  else
    let minutes := time.GetMinutesCount
    let hours := time.GetHoursCount
    let eventPart :=
      if time.IsEvent then
        (if time.IsEventOffset then
          "(" ++ writeInt hours ++ (if hours < 0 then "-" else "+")
            ++ writeWidth2 hours.natAbs ++ ":" ++ writeWidth2 minutes.natAbs ++ ")"
         else "")
          ++ writeEvent time.GetEvent
      else ""
    let timePart :=
      if time.IsMinutes then
        writeWidth2 minutes.natAbs
      else
        writeWidth2 hours.natAbs ++ ":" ++ writeWidth2 minutes.natAbs
    eventPart ++ timePart

end osmoh

namespace BookmarkManager

/-! ## Change tracker: proofs -/

theorem CheckChanges_eq_true_iff (t : MarksChangesTracker) :
    t.CheckChanges = true ↔
      (t.m_createdMarks.Nonempty ∨ t.m_removedMarks.Nonempty ∨ t.m_updatedMarks.Nonempty
        ∨ t.m_createdLines.Nonempty ∨ t.m_removedLines.Nonempty
        ∨ t.m_dirtyGroups.Nonempty ∨ t.m_createdGroups.Nonempty
        ∨ t.m_removedGroups.Nonempty) := by
  simp only [MarksChangesTracker.CheckChanges, Finset.nonempty_iff_ne_empty]
  simp only [Bool.not_eq_true', Bool.and_eq_false_iff, decide_eq_false_iff_not]
  tauto

/-- C5. `CheckChanges` is true exactly when one of the eight accumulated sets is
non-empty; `ResetChanges` empties every set, and `CheckChanges` right after it is false. -/
theorem check_and_reset_changes (t : MarksChangesTracker) :
    (t.CheckChanges = true ↔
      (t.m_createdMarks.Nonempty ∨ t.m_removedMarks.Nonempty ∨ t.m_updatedMarks.Nonempty
        ∨ t.m_createdLines.Nonempty ∨ t.m_removedLines.Nonempty
        ∨ t.m_dirtyGroups.Nonempty ∨ t.m_createdGroups.Nonempty
        ∨ t.m_removedGroups.Nonempty))
    ∧ (t.ResetChanges.m_createdMarks = ∅ ∧ t.ResetChanges.m_removedMarks = ∅
        ∧ t.ResetChanges.m_updatedMarks = ∅ ∧ t.ResetChanges.m_createdLines = ∅
        ∧ t.ResetChanges.m_removedLines = ∅ ∧ t.ResetChanges.m_dirtyGroups = ∅
        ∧ t.ResetChanges.m_createdGroups = ∅ ∧ t.ResetChanges.m_removedGroups = ∅)
    ∧ t.ResetChanges.CheckChanges = false := by
  refine ⟨CheckChanges_eq_true_iff t, ?_, ?_⟩
  · simp [MarksChangesTracker.ResetChanges]
  · simp [MarksChangesTracker.ResetChanges, MarksChangesTracker.CheckChanges]

theorem OnUpdateMark_idem (t : MarksChangesTracker) (markId : MarkID) :
    (t.OnUpdateMark markId).OnUpdateMark markId = t.OnUpdateMark markId := by
  simp [MarksChangesTracker.OnUpdateMark]

/-- C6. Recording an update is idempotent: any positive number of `OnUpdateMark(id)` calls
leaves the tracker in the state one call leaves it in, and `id` occurs exactly once in the
updated-mark set. -/
theorem update_idempotent (t : MarksChangesTracker) (markId : MarkID) (n : Nat) :
    (fun s : MarksChangesTracker => s.OnUpdateMark markId)^[n + 1] t = t.OnUpdateMark markId
    ∧ (t.OnUpdateMark markId).OnUpdateMark markId = t.OnUpdateMark markId
    ∧ Multiset.count markId (t.OnUpdateMark markId).GetUpdatedMarkIds.val = 1 := by
  refine ⟨?_, OnUpdateMark_idem t markId, ?_⟩
  · induction n with
    | zero => rfl
    | succ k ih =>
        rw [Function.iterate_succ_apply', ih, OnUpdateMark_idem]
  · apply Multiset.count_eq_one_of_mem (Finset.nodup _)
    simp [MarksChangesTracker.GetUpdatedMarkIds, MarksChangesTracker.OnUpdateMark]

/-! ### Status of one mark -/

theorem markStatus_apply (t : MarksChangesTracker) (call : TrackerCall) (markId : MarkID) :
    markStatus (call.apply t) markId =
      match call.onMark markId with
      | some s => MarkStep.next (markStatus t markId) s
      | none => markStatus t markId := by
  cases call with
  | addMark i =>
      by_cases h : i = markId
      · subst h
        simp [TrackerCall.apply, TrackerCall.onMark, markStatus, MarkStep.next,
          MarksChangesTracker.OnAddMark]
      · have h' : markId ≠ i := fun e => h e.symm
        simp [TrackerCall.apply, TrackerCall.onMark, markStatus,
          MarksChangesTracker.OnAddMark, h, h']
  | updateMark i =>
      by_cases h : i = markId
      · subst h
        simp [TrackerCall.apply, TrackerCall.onMark, markStatus, MarkStep.next,
          MarksChangesTracker.OnUpdateMark]
      · have h' : markId ≠ i := fun e => h e.symm
        simp [TrackerCall.apply, TrackerCall.onMark, markStatus,
          MarksChangesTracker.OnUpdateMark, h, h']
  | deleteMark i =>
      by_cases h : i = markId
      · subst h
        by_cases hc : i ∈ t.m_createdMarks
        · simp [TrackerCall.apply, TrackerCall.onMark, markStatus, MarkStep.next,
            MarksChangesTracker.OnDeleteMark, hc]
        · simp [TrackerCall.apply, TrackerCall.onMark, markStatus, MarkStep.next,
            MarksChangesTracker.OnDeleteMark, hc]
      · have h' : markId ≠ i := fun e => h e.symm
        by_cases hc : i ∈ t.m_createdMarks
        · simp [TrackerCall.apply, TrackerCall.onMark, markStatus,
            MarksChangesTracker.OnDeleteMark, hc, h, h']
        · simp [TrackerCall.apply, TrackerCall.onMark, markStatus,
            MarksChangesTracker.OnDeleteMark, hc, h, h']
  | addLine i =>
      simp [TrackerCall.apply, TrackerCall.onMark, markStatus, MarksChangesTracker.OnAddLine]
  | deleteLine i =>
      by_cases hc : i ∈ t.m_createdLines <;>
        simp [TrackerCall.apply, TrackerCall.onMark, markStatus,
          MarksChangesTracker.OnDeleteLine, hc]
  | addGroup g =>
      simp [TrackerCall.apply, TrackerCall.onMark, markStatus, MarksChangesTracker.OnAddGroup]
  | deleteGroup g =>
      by_cases hc : g ∈ t.m_createdGroups <;>
        simp [TrackerCall.apply, TrackerCall.onMark, markStatus,
          MarksChangesTracker.OnDeleteGroup, hc]

theorem markStatus_recordCalls (calls : List TrackerCall) (t : MarksChangesTracker)
    (markId : MarkID) :
    markStatus (recordCalls t calls) markId =
      (markHistory markId calls).foldl MarkStep.next (markStatus t markId) := by
  induction calls generalizing t with
  | nil => rfl
  | cons call rest ih =>
      have hstep := markStatus_apply t call markId
      simp only [recordCalls, List.foldl_cons] at ih ⊢
      rw [ih (call.apply t)]
      unfold markHistory
      rw [List.filterMap_cons]
      cases hc : call.onMark markId with
      | none => rw [hc] at hstep; simp only [hstep]
      | some s => rw [hc] at hstep; simp only [hstep, List.foldl_cons]

theorem mem_created_iff (t : MarksChangesTracker) (markId : MarkID) :
    markId ∈ t.m_createdMarks ↔ (markStatus t markId).1 = true := by
  simp [markStatus]

theorem mem_removed_iff (t : MarksChangesTracker) (markId : MarkID) :
    markId ∈ t.m_removedMarks ↔ (markStatus t markId).2.1 = true := by
  simp [markStatus]

theorem mem_updated_iff (t : MarksChangesTracker) (markId : MarkID) :
    markId ∈ t.m_updatedMarks ↔ (markStatus t markId).2.2 = true := by
  simp [markStatus]

/-- The tracker itself does not look at the order of the calls: an `OnUpdateMark(1)` that
comes after `OnDeleteMark(1)` leaves 1 in the removed and in the updated set.  Such a
sequence is none of the epochs above, where `OnDeleteMark` is the last call. -/
theorem update_after_delete_recorded :
    ¬ Disjoint
        (recordCalls MarksChangesTracker.init
          [TrackerCall.deleteMark 1, TrackerCall.updateMark 1]).GetRemovedMarkIds
        (recordCalls MarksChangesTracker.init
          [TrackerCall.deleteMark 1, TrackerCall.updateMark 1]).GetUpdatedMarkIds := by
  decide
/-! ## Edit sessions: proofs -/

theorem runSession_append (p q : List SessionEvent) (m : Manager) :
    runSession m (p ++ q) = (runSession m p).bind (fun m1 => runSession m1 q) := by
  induction p generalizing m with
  | nil => rfl
  | cons e rest ih =>
      simp only [List.cons_append, runSession]
      cases e.step m with
      | none => rfl
      | some m1 => exact ih m1

/-- Inside an open session: a well-nested run of events changes the counter and the change
tracker only, never reaches counter zero and never notifies the renderer. -/
theorem runSession_inner (p q : List SessionEvent) (d : Nat) (m : Manager)
    (hwn : wellNested d (p ++ q) = true) (hd : d < m.m_openedEditSessionsCount) :
    ∃ d' c, wellNested d' q = true ∧ d' < c ∧ c + d = m.m_openedEditSessionsCount + d'
      ∧ runSession m p = some
          { m with
            m_changesTracker := recordCalls m.m_changesTracker (mutationsOf p),
            m_openedEditSessionsCount := c } := by
  induction p generalizing d m with
  | nil =>
      exact ⟨d, m.m_openedEditSessionsCount, hwn, hd, rfl, rfl⟩
  | cons e rest ih =>
      cases e with
      | opened =>
          simp only [List.cons_append, wellNested] at hwn
          obtain ⟨d', c, h1, h2, h3, h4⟩ := ih (d + 1) (OnEditSessionOpened m) hwn
            (by simp only [OnEditSessionOpened]; omega)
          refine ⟨d', c, h1, h2, ?_, ?_⟩
          · simp only [OnEditSessionOpened] at h3; omega
          · simp only [runSession, SessionEvent.step, h4]
            rfl
      | closed =>
          cases d with
          | zero => simp [wellNested] at hwn
          | succ d0 =>
              simp only [List.cons_append, wellNested] at hwn
              have hne : m.m_openedEditSessionsCount ≠ 0 := by omega
              have hne1 : m.m_openedEditSessionsCount - 1 ≠ 0 := by omega
              have hstep : OnEditSessionClosed m = some
                  { m with m_openedEditSessionsCount := m.m_openedEditSessionsCount - 1 } := by
                simp [OnEditSessionClosed, hne, hne1]
              obtain ⟨d', c, h1, h2, h3, h4⟩ := ih d0
                { m with m_openedEditSessionsCount := m.m_openedEditSessionsCount - 1 } hwn
                (by simp only; omega)
              refine ⟨d', c, h1, h2, ?_, ?_⟩
              · simp only at h3; omega
              · simp only [runSession, SessionEvent.step, hstep, h4]
                rfl
      | mutation call =>
          simp only [List.cons_append, wellNested] at hwn
          obtain ⟨d', c, h1, h2, h3, h4⟩ := ih d
            { m with m_changesTracker := call.apply m.m_changesTracker } hwn hd
          refine ⟨d', c, h1, h2, h3, ?_⟩
          simp only [runSession, SessionEvent.step, h4]
          rfl

/-- The view handed to the renderer by a flush: the tracker with its dirty-group set
recomputed; the mark, line and group creation and removal sets are those accumulated. -/
theorem NotifyChanges_log (m : Manager) :
    ∃ d, (NotifyChanges m).rendererLog = m.rendererLog ++ [d]
      ∧ d.m_createdMarks = m.m_changesTracker.m_createdMarks
      ∧ d.m_removedMarks = m.m_changesTracker.m_removedMarks
      ∧ d.m_updatedMarks = m.m_changesTracker.m_updatedMarks
      ∧ d.m_removedLines = m.m_changesTracker.m_removedLines
      ∧ d.m_removedGroups = m.m_changesTracker.m_removedGroups
      ∧ (m.m_changesTracker.CheckChanges = true →
          d.m_dirtyGroups = CollectDirtyGroups m m.m_changesTracker.m_dirtyGroups) := by
  by_cases h : m.m_changesTracker.CheckChanges = true
  · refine ⟨{ m.m_changesTracker with
        m_dirtyGroups := CollectDirtyGroups m m.m_changesTracker.m_dirtyGroups },
      ?_, rfl, rfl, rfl, rfl, rfl, fun _ => rfl⟩
    simp only [NotifyChanges, h, if_true]
  · refine ⟨m.m_changesTracker, ?_, rfl, rfl, rfl, rfl, rfl, fun h' => absurd h' h⟩
    simp only [NotifyChanges, h]
    rfl

/-- An outermost session, run to its end: the counter is back at zero and the renderer got
exactly one view, that of the flush of everything recorded inside. -/
theorem runSession_outermost (m : Manager) (body : List SessionEvent)
    (h0 : m.m_openedEditSessionsCount = 0) (hbody : wellNested 0 body = true) :
    runSession m (SessionEvent.opened :: body ++ [SessionEvent.closed]) = some
      (NotifyChanges
        { m with m_changesTracker := recordCalls m.m_changesTracker (mutationsOf body) }) := by
  have hwn : wellNested 0 (body ++ []) = true := by simpa using hbody
  obtain ⟨d', c, h1, h2, h3, h4⟩ :=
    runSession_inner body [] 0 (OnEditSessionOpened m) hwn (by simp [OnEditSessionOpened])
  have hd' : d' = 0 := by simpa [wellNested] using h1
  subst hd'
  have hc : c = 1 := by simp only [OnEditSessionOpened, h0] at h3; omega
  subst hc
  have hopen : runSession m (SessionEvent.opened :: body ++ [SessionEvent.closed])
      = runSession (OnEditSessionOpened m) (body ++ [SessionEvent.closed]) := rfl
  rw [hopen, runSession_append, h4]
  simp only [Option.bind, runSession, SessionEvent.step, OnEditSessionClosed,
    OnEditSessionOpened, h0]
  rfl

/-- Before the last event of an outermost session the renderer has not been notified, and
after the first event the counter is not zero. -/
theorem runSession_before_end (m : Manager) (body : List SessionEvent)
    (hbody : wellNested 0 body = true) (k : Nat)
    (hk : k < (SessionEvent.opened :: body ++ [SessionEvent.closed]).length) :
    ∃ mk, runSession m ((SessionEvent.opened :: body ++ [SessionEvent.closed]).take k)
        = some mk
      ∧ mk.rendererLog = m.rendererLog ∧ (0 < k → mk.m_openedEditSessionsCount ≠ 0) := by
  cases k with
  | zero => exact ⟨m, rfl, rfl, fun h => absurd h (Nat.lt_irrefl 0)⟩
  | succ k' =>
      have hk' : k' ≤ body.length := by
        simp only [List.cons_append, List.length_cons, List.length_append,
          List.length_nil] at hk
        omega
      have htake : (SessionEvent.opened :: body ++ [SessionEvent.closed]).take (k' + 1)
          = SessionEvent.opened :: body.take k' := by
        simp only [List.cons_append, List.take_succ_cons]
        rw [List.take_append_of_le_length hk']
      have hwn : wellNested 0 (body.take k' ++ body.drop k') = true := by
        rw [List.take_append_drop]; exact hbody
      obtain ⟨d', c, _, h2, _, h4⟩ :=
        runSession_inner (body.take k') (body.drop k') 0 (OnEditSessionOpened m) hwn
          (by simp [OnEditSessionOpened])
      refine ⟨{ OnEditSessionOpened m with
          m_changesTracker :=
            recordCalls (OnEditSessionOpened m).m_changesTracker (mutationsOf (body.take k')),
          m_openedEditSessionsCount := c }, ?_, ?_, ?_⟩
      · rw [htake]
        simp only [runSession, SessionEvent.step]
        exact h4
      · rfl
      · intro _
        simp only
        omega

/-- C2. Batching invariant.  An outermost edit session (counter zero before it) with any
well-nested openings and closings and any mutations inside runs to its end with the
counter back at zero and exactly one renderer notification, delivered by the last close;
at no earlier point has the renderer been notified, and the counter is non-zero at every
point strictly inside. -/
theorem batching_invariant (m : Manager) (body : List SessionEvent)
    (h0 : m.m_openedEditSessionsCount = 0) (hbody : wellNested 0 body = true) :
    (∃ m' d, runSession m (SessionEvent.opened :: body ++ [SessionEvent.closed]) = some m'
        ∧ m'.m_openedEditSessionsCount = 0 ∧ m'.rendererLog = m.rendererLog ++ [d])
    ∧ (∀ k, k < (SessionEvent.opened :: body ++ [SessionEvent.closed]).length →
        ∃ mk, runSession m ((SessionEvent.opened :: body ++ [SessionEvent.closed]).take k)
            = some mk
          ∧ mk.rendererLog = m.rendererLog ∧ (0 < k → mk.m_openedEditSessionsCount ≠ 0)) := by
  refine ⟨?_, fun k hk => runSession_before_end m body hbody k hk⟩
  obtain ⟨d, hd, _⟩ := NotifyChanges_log
    { m with m_changesTracker := recordCalls m.m_changesTracker (mutationsOf body) }
  exact ⟨_, d, runSession_outermost m body h0 hbody, by simp [NotifyChanges, h0], hd⟩

/-- C2 at a concrete session: two nested sessions and three mutations. -/
theorem batching_invariant_witness :
    (∃ m' d, runSession blank
          (SessionEvent.opened ::
            [SessionEvent.mutation (TrackerCall.addMark 1), SessionEvent.opened,
              SessionEvent.mutation (TrackerCall.updateMark 7), SessionEvent.closed,
              SessionEvent.mutation (TrackerCall.deleteMark 1)] ++ [SessionEvent.closed])
          = some m'
        ∧ m'.m_openedEditSessionsCount = 0 ∧ m'.rendererLog = blank.rendererLog ++ [d])
    ∧ (∀ k, k < (SessionEvent.opened ::
            [SessionEvent.mutation (TrackerCall.addMark 1), SessionEvent.opened,
              SessionEvent.mutation (TrackerCall.updateMark 7), SessionEvent.closed,
              SessionEvent.mutation (TrackerCall.deleteMark 1)]
            ++ [SessionEvent.closed]).length →
        ∃ mk, runSession blank ((SessionEvent.opened ::
            [SessionEvent.mutation (TrackerCall.addMark 1), SessionEvent.opened,
              SessionEvent.mutation (TrackerCall.updateMark 7), SessionEvent.closed,
              SessionEvent.mutation (TrackerCall.deleteMark 1)]
            ++ [SessionEvent.closed]).take k) = some mk
          ∧ mk.rendererLog = blank.rendererLog
          ∧ (0 < k → mk.m_openedEditSessionsCount ≠ 0)) :=
  batching_invariant blank
    [SessionEvent.mutation (TrackerCall.addMark 1), SessionEvent.opened,
      SessionEvent.mutation (TrackerCall.updateMark 7), SessionEvent.closed,
      SessionEvent.mutation (TrackerCall.deleteMark 1)]
    rfl (by decide)

theorem status_updatedThenDeleted (h : List MarkStep) (u : Bool)
    (hh : updatedThenDeleted h = true) :
    h.foldl MarkStep.next (true, false, u) = (false, false, false) := by
  induction h generalizing u with
  | nil => simp [updatedThenDeleted] at hh
  | cons s rest ih =>
      cases s with
      | add => simp [updatedThenDeleted] at hh
      | update =>
          simp only [updatedThenDeleted] at hh
          simpa [MarkStep.next] using ih true hh
      | delete =>
          cases rest with
          | nil => simp [MarkStep.next]
          | cons s' r' => simp [updatedThenDeleted] at hh

theorem status_createdThenDeleted (h : List MarkStep) (c u : Bool)
    (hh : createdThenDeleted h = true) :
    h.foldl MarkStep.next (c, false, u) = (false, false, false) := by
  cases h with
  | nil => simp [createdThenDeleted] at hh
  | cons s rest =>
      cases s with
      | add =>
          simp only [createdThenDeleted] at hh
          simpa [MarkStep.next] using status_updatedThenDeleted rest u hh
      | update => simp [createdThenDeleted] at hh
      | delete => simp [createdThenDeleted] at hh

/-- C1. Cancellation invariant.  Take any outermost edit session (any nesting and any
other mutations inside) and any set of mark identifiers that are fresh when it opens (not
recorded as removed) and each of which is, inside the session, created, possibly updated,
and then deleted.  The session runs to its flush, and the view delivered to the renderer
holds none of these identifiers in its created-mark set and none in its removed-mark
set (nor in its updated-mark set). -/
theorem cancellation_invariant (m : Manager) (body : List SessionEvent)
    (ids : Finset MarkID)
    (h0 : m.m_openedEditSessionsCount = 0) (hbody : wellNested 0 body = true)
    (hfresh : ∀ id ∈ ids, id ∉ m.m_changesTracker.GetRemovedMarkIds)
    (hlife : ∀ id ∈ ids, createdThenDeleted (markHistory id (mutationsOf body)) = true) :
    ∃ m' d, runSession m (SessionEvent.opened :: body ++ [SessionEvent.closed]) = some m'
      ∧ m'.rendererLog = m.rendererLog ++ [d]
      ∧ ∀ id ∈ ids, id ∉ d.GetCreatedMarkIds ∧ id ∉ d.GetRemovedMarkIds
          ∧ id ∉ d.GetUpdatedMarkIds := by
  obtain ⟨d, hd, hcr, hrm, hup, _⟩ := NotifyChanges_log
    { m with m_changesTracker := recordCalls m.m_changesTracker (mutationsOf body) }
  refine ⟨_, d, runSession_outermost m body h0 hbody, hd, ?_⟩
  intro id hid
  have hst := markStatus_recordCalls (mutationsOf body) m.m_changesTracker id
  have hr : (markStatus m.m_changesTracker id).2.1 = false := by
    have := hfresh id hid
    simpa [markStatus, MarksChangesTracker.GetRemovedMarkIds] using this
  have hstart : markStatus m.m_changesTracker id
      = ((markStatus m.m_changesTracker id).1, false, (markStatus m.m_changesTracker id).2.2) := by
    rw [← hr]
  rw [hstart, status_createdThenDeleted _ _ _ (hlife id hid)] at hst
  simp only [MarksChangesTracker.GetCreatedMarkIds, MarksChangesTracker.GetRemovedMarkIds,
    MarksChangesTracker.GetUpdatedMarkIds, hcr, hrm, hup, mem_created_iff, mem_removed_iff,
    mem_updated_iff, hst]
  simp

/-- C1 at a concrete session: marks 1 and 2 are created and deleted (2 in a nested session,
1 after an update), mark 9 existed before and is deleted. -/
theorem cancellation_invariant_witness :
    ∃ m' d, runSession blank
        (SessionEvent.opened ::
          [SessionEvent.mutation (TrackerCall.addMark 1), SessionEvent.opened,
            SessionEvent.mutation (TrackerCall.addMark 2),
            SessionEvent.mutation (TrackerCall.updateMark 1),
            SessionEvent.mutation (TrackerCall.deleteMark 2), SessionEvent.closed,
            SessionEvent.mutation (TrackerCall.deleteMark 9),
            SessionEvent.mutation (TrackerCall.deleteMark 1)] ++ [SessionEvent.closed])
        = some m'
      ∧ m'.rendererLog = blank.rendererLog ++ [d]
      ∧ ∀ id ∈ ({1, 2} : Finset MarkID), id ∉ d.GetCreatedMarkIds ∧ id ∉ d.GetRemovedMarkIds
          ∧ id ∉ d.GetUpdatedMarkIds :=
  cancellation_invariant blank
    [SessionEvent.mutation (TrackerCall.addMark 1), SessionEvent.opened,
      SessionEvent.mutation (TrackerCall.addMark 2),
      SessionEvent.mutation (TrackerCall.updateMark 1),
      SessionEvent.mutation (TrackerCall.deleteMark 2), SessionEvent.closed,
      SessionEvent.mutation (TrackerCall.deleteMark 9),
      SessionEvent.mutation (TrackerCall.deleteMark 1)]
    {1, 2} rfl (by decide) (by decide) (by decide)

/-! ## Typed accessors and the operations of the header: proofs -/

/-- C7. Typed accessor.  `GetMark<UserMarkT>(markId)` returns the mark that
`GetUserMark(markId)` returns whenever that mark exists and its class is `UserMarkT` or
derived from it; for an unknown identifier and for a mark of another class its assertion
fails.  `GetMarkForEdit<UserMarkT>` does the same over `GetUserMarkForEdit`. -/
theorem typed_accessor (derives : MarkClass → MarkClass → Bool) (m : Manager)
    (UserMarkT : MarkClass) (markId : MarkID) :
    (∀ mark, GetUserMark m markId = some mark → derives mark.m_class UserMarkT = true →
        GetMark derives m UserMarkT markId = some mark)
    ∧ (GetUserMark m markId = none → GetMark derives m UserMarkT markId = none)
    ∧ (∀ mark, GetUserMark m markId = some mark → derives mark.m_class UserMarkT = false →
        GetMark derives m UserMarkT markId = none)
    ∧ (∀ mark, (GetUserMarkForEdit m markId).1 = some mark →
        derives mark.m_class UserMarkT = true →
        GetMarkForEdit derives m UserMarkT markId
          = some (mark, (GetUserMarkForEdit m markId).2))
    ∧ ((GetUserMarkForEdit m markId).1 = none →
        GetMarkForEdit derives m UserMarkT markId = none)
    ∧ (∀ mark, (GetUserMarkForEdit m markId).1 = some mark →
        derives mark.m_class UserMarkT = false →
        GetMarkForEdit derives m UserMarkT markId = none) := by
  refine ⟨?_, ?_, ?_, ?_, ?_, ?_⟩
  · intro mark h hd
    simp [GetMark, h, dynamicCast, hd]
  · intro h
    simp [GetMark, h, dynamicCast]
  · intro mark h hd
    simp [GetMark, h, dynamicCast, hd]
  · intro mark h hd
    simp [GetMarkForEdit, h, dynamicCast, hd]
  · intro h
    simp [GetMarkForEdit, h, dynamicCast]
  · intro mark h hd
    simp [GetMarkForEdit, h, dynamicCast, hd]

/-- C7 at a concrete store: mark 1 has class 3; it is returned as class 3 and as class 0,
not as class 5, and identifier 2 is unknown. -/
theorem typed_accessor_witness :
    GetMark derivesFromRoot oneMark 3 1 = some { m_id := 1, m_type := 0, m_class := 3 }
    ∧ GetMark derivesFromRoot oneMark 0 1 = some { m_id := 1, m_type := 0, m_class := 3 }
    ∧ GetMark derivesFromRoot oneMark 5 1 = none
    ∧ GetMark derivesFromRoot oneMark 3 2 = none
    ∧ GetMarkForEdit derivesFromRoot oneMark 0 1
        = some ({ m_id := 1, m_type := 0, m_class := 3 }, (GetUserMarkForEdit oneMark 1).2)
    ∧ GetMarkForEdit derivesFromRoot oneMark 5 1 = none
    ∧ GetMarkForEdit derivesFromRoot oneMark 3 2 = none :=
  ⟨(typed_accessor derivesFromRoot oneMark 3 1).1 _ rfl rfl,
   (typed_accessor derivesFromRoot oneMark 0 1).1 _ rfl rfl,
   (typed_accessor derivesFromRoot oneMark 5 1).2.2.1 _ rfl rfl,
   (typed_accessor derivesFromRoot oneMark 3 2).2.1 rfl,
   (typed_accessor derivesFromRoot oneMark 0 1).2.2.2.1 _ rfl rfl,
   (typed_accessor derivesFromRoot oneMark 5 1).2.2.2.2.2 _ rfl rfl,
   (typed_accessor derivesFromRoot oneMark 3 2).2.2.2.2.1 rfl⟩

/-! ## Entity store and categories: proofs -/

theorem Store.find_eq_none_of_forall {β : Type} (s : List (Nat × β)) (key : Nat)
    (h : ∀ e ∈ s, e.1 ≠ key) : Store.find s key = none := by
  induction s with
  | nil => rfl
  | cons e rest ih =>
      have he : e.1 ≠ key := h e (List.mem_cons_self _ _)
      simp only [Store.find, if_neg he]
      exact ih (fun x hx => h x (List.mem_cons_of_mem _ hx))

theorem Store.mem_foldl_erase {β : Type} (ids : List Nat) (s : List (Nat × β))
    (e : Nat × β) (he : e ∈ ids.foldl Store.erase s) : e ∈ s ∧ e.1 ∉ ids := by
  induction ids generalizing s with
  | nil => exact ⟨he, by simp⟩
  | cons i rest ih =>
      simp only [List.foldl_cons] at he
      obtain ⟨h1, h2⟩ := ih (Store.erase s i) he
      simp only [Store.erase, List.mem_filter, decide_eq_true_eq] at h1
      refine ⟨h1.1, ?_⟩
      simp only [List.mem_cons, not_or]
      exact ⟨h1.2, h2⟩

theorem Store.find_foldl_erase {β : Type} (ids : List Nat) (s : List (Nat × β)) (key : Nat)
    (hk : key ∈ ids) : Store.find (ids.foldl Store.erase s) key = none := by
  apply Store.find_eq_none_of_forall
  intro e he heq
  exact (Store.mem_foldl_erase ids s e he).2 (heq ▸ hk)

theorem foldl_dropBookmark (ids : List MarkID) (m : Manager) :
    ids.foldl dropBookmark m =
      { m with
        m_changesTracker := ids.foldl MarksChangesTracker.OnDeleteMark m.m_changesTracker,
        m_bookmarks := ids.foldl Store.erase m.m_bookmarks } := by
  induction ids generalizing m with
  | nil => rfl
  | cons i rest ih =>
      simp only [List.foldl_cons]
      rw [ih]
      rfl

theorem foldl_dropTrack (ids : List LineID) (m : Manager) :
    ids.foldl dropTrack m =
      { m with
        m_changesTracker := ids.foldl MarksChangesTracker.OnDeleteLine m.m_changesTracker,
        m_tracks := ids.foldl Store.erase m.m_tracks } := by
  induction ids generalizing m with
  | nil => rfl
  | cons i rest ih =>
      simp only [List.foldl_cons]
      rw [ih]
      rfl

/-- Deleting marks none of which is pending as created records each of them as removed and
touches neither the created-mark set nor the line and group sets. -/
theorem foldl_OnDeleteMark (ids : List MarkID) (t : MarksChangesTracker)
    (h : ∀ id ∈ ids, id ∉ t.m_createdMarks) :
    (ids.foldl MarksChangesTracker.OnDeleteMark t).m_createdMarks = t.m_createdMarks
    ∧ (∀ id ∈ ids, id ∈ (ids.foldl MarksChangesTracker.OnDeleteMark t).m_removedMarks)
    ∧ t.m_removedMarks ⊆ (ids.foldl MarksChangesTracker.OnDeleteMark t).m_removedMarks
    ∧ (ids.foldl MarksChangesTracker.OnDeleteMark t).m_createdLines = t.m_createdLines
    ∧ (ids.foldl MarksChangesTracker.OnDeleteMark t).m_removedLines = t.m_removedLines
    ∧ (ids.foldl MarksChangesTracker.OnDeleteMark t).m_createdGroups = t.m_createdGroups
    ∧ (ids.foldl MarksChangesTracker.OnDeleteMark t).m_removedGroups = t.m_removedGroups := by
  induction ids generalizing t with
  | nil => exact ⟨rfl, by simp, Finset.Subset.refl _, rfl, rfl, rfl, rfl⟩
  | cons i rest ih =>
      have hi : i ∉ t.m_createdMarks := h i (List.mem_cons_self _ _)
      have hstep : t.OnDeleteMark i =
          { t with m_updatedMarks := t.m_updatedMarks.erase i,
                   m_removedMarks := insert i t.m_removedMarks } := by
        simp [MarksChangesTracker.OnDeleteMark, hi]
      have hrest : ∀ id ∈ rest, id ∉ (t.OnDeleteMark i).m_createdMarks := by
        intro id hid
        rw [hstep]
        exact h id (List.mem_cons_of_mem _ hid)
      obtain ⟨h1, h2, h3, h4, h5, h6, h7⟩ := ih (t.OnDeleteMark i) hrest
      simp only [List.foldl_cons]
      refine ⟨?_, ?_, ?_, ?_, ?_, ?_, ?_⟩
      · rw [h1, hstep]
      · intro id hid
        rcases List.mem_cons.mp hid with rfl | hid
        · apply h3
          rw [hstep]
          exact Finset.mem_insert_self _ _
        · exact h2 id hid
      · intro id hid
        apply h3
        rw [hstep]
        exact Finset.mem_insert_of_mem hid
      · rw [h4, hstep]
      · rw [h5, hstep]
      · rw [h6, hstep]
      · rw [h7, hstep]

/-- Deleting lines none of which is pending as created records each of them as removed and
touches neither the mark sets nor the group sets. -/
theorem foldl_OnDeleteLine (ids : List LineID) (t : MarksChangesTracker)
    (h : ∀ id ∈ ids, id ∉ t.m_createdLines) :
    (∀ id ∈ ids, id ∈ (ids.foldl MarksChangesTracker.OnDeleteLine t).m_removedLines)
    ∧ t.m_removedLines ⊆ (ids.foldl MarksChangesTracker.OnDeleteLine t).m_removedLines
    ∧ (ids.foldl MarksChangesTracker.OnDeleteLine t).m_createdLines = t.m_createdLines
    ∧ (ids.foldl MarksChangesTracker.OnDeleteLine t).m_removedMarks = t.m_removedMarks
    ∧ (ids.foldl MarksChangesTracker.OnDeleteLine t).m_createdGroups = t.m_createdGroups
    ∧ (ids.foldl MarksChangesTracker.OnDeleteLine t).m_removedGroups = t.m_removedGroups := by
  induction ids generalizing t with
  | nil => exact ⟨by simp, Finset.Subset.refl _, rfl, rfl, rfl, rfl⟩
  | cons i rest ih =>
      have hi : i ∉ t.m_createdLines := h i (List.mem_cons_self _ _)
      have hstep : t.OnDeleteLine i =
          { t with m_removedLines := insert i t.m_removedLines } := by
        simp [MarksChangesTracker.OnDeleteLine, hi]
      have hrest : ∀ id ∈ rest, id ∉ (t.OnDeleteLine i).m_createdLines := by
        intro id hid
        rw [hstep]
        exact h id (List.mem_cons_of_mem _ hid)
      obtain ⟨h2, h3, h4, h5, h6, h7⟩ := ih (t.OnDeleteLine i) hrest
      simp only [List.foldl_cons]
      refine ⟨?_, ?_, ?_, ?_, ?_, ?_⟩
      · intro id hid
        rcases List.mem_cons.mp hid with rfl | hid
        · apply h3
          rw [hstep]
          exact Finset.mem_insert_self _ _
        · exact h2 id hid
      · intro id hid
        apply h3
        rw [hstep]
        exact Finset.mem_insert_of_mem hid
      · rw [h4, hstep]
      · rw [h5, hstep]
      · rw [h6, hstep]
      · rw [h7, hstep]

/-- What `DeleteBmCategory` does to a known category. -/
theorem DeleteBmCategory_known (m : Manager) (groupId : MarkGroupID)
    (category : BookmarkCategory) (hcat : GetBmCategory m groupId = some category) :
    DeleteBmCategory m groupId =
      (true,
        { m with
          m_changesTracker :=
            (category.m_tracks.foldl MarksChangesTracker.OnDeleteLine
              (category.m_userMarks.foldl MarksChangesTracker.OnDeleteMark
                m.m_changesTracker)).OnDeleteGroup groupId,
          m_bookmarks := category.m_userMarks.foldl Store.erase m.m_bookmarks,
          m_tracks := category.m_tracks.foldl Store.erase m.m_tracks,
          m_categories := Store.erase
            (Store.modify m.m_categories groupId
              (fun c => { c with m_userMarks := [], m_tracks := [], m_isDirty := true }))
            groupId }) := by
  simp only [DeleteBmCategory, ClearGroup, hcat, foldl_dropBookmark, foldl_dropTrack]

theorem DeleteBmCategory_fields (m : Manager) (groupId : MarkGroupID)
    (category : BookmarkCategory) (hcat : GetBmCategory m groupId = some category) :
    (DeleteBmCategory m groupId).1 = true
    ∧ (DeleteBmCategory m groupId).2.m_changesTracker =
        (category.m_tracks.foldl MarksChangesTracker.OnDeleteLine
          (category.m_userMarks.foldl MarksChangesTracker.OnDeleteMark
            m.m_changesTracker)).OnDeleteGroup groupId
    ∧ (DeleteBmCategory m groupId).2.m_bookmarks
        = category.m_userMarks.foldl Store.erase m.m_bookmarks
    ∧ (DeleteBmCategory m groupId).2.m_tracks
        = category.m_tracks.foldl Store.erase m.m_tracks
    ∧ (DeleteBmCategory m groupId).2.m_categories
        = Store.erase
            (Store.modify m.m_categories groupId
              (fun c => { c with m_userMarks := [], m_tracks := [], m_isDirty := true }))
            groupId
    ∧ (DeleteBmCategory m groupId).2.m_openedEditSessionsCount = m.m_openedEditSessionsCount
    ∧ (DeleteBmCategory m groupId).2.rendererLog = m.rendererLog := by
  rw [DeleteBmCategory_known m groupId category hcat]
  exact ⟨rfl, rfl, rfl, rfl, rfl, rfl, rfl⟩

/-- The close that brings the counter from one to zero performs the flush. -/
theorem OnEditSessionClosed_last (x : Manager) (h : x.m_openedEditSessionsCount = 1) :
    OnEditSessionClosed x = some (NotifyChanges { x with m_openedEditSessionsCount := 0 }) := by
  simp [OnEditSessionClosed, h]

/-- Deleting a category nothing of which is pending as created, inside an outermost
session, and closing the session. -/
theorem delete_category_flushed (m : Manager) (groupId : MarkGroupID)
    (category : BookmarkCategory)
    (h0 : m.m_openedEditSessionsCount = 0)
    (hcat : GetBmCategory m groupId = some category)
    (hg : groupId ∉ m.m_changesTracker.m_createdGroups)
    (hmarks : ∀ id ∈ category.m_userMarks, id ∉ m.m_changesTracker.m_createdMarks)
    (hlines : ∀ id ∈ category.m_tracks, id ∉ m.m_changesTracker.m_createdLines) :
    (DeleteBmCategory (OnEditSessionOpened m) groupId).1 = true
    ∧ ∃ m' d,
        OnEditSessionClosed (DeleteBmCategory (OnEditSessionOpened m) groupId).2 = some m'
        ∧ m'.rendererLog = m.rendererLog ++ [d]
        ∧ groupId ∈ d.GetRemovedGroupIds
        ∧ (∀ id ∈ category.m_userMarks,
            id ∈ d.GetRemovedMarkIds ∧ GetBookmark m' id = none)
        ∧ (∀ id ∈ category.m_tracks,
            id ∈ d.GetRemovedLineIds ∧ GetTrack m' id = none)
        ∧ GetBmCategory m' groupId = none := by
  have hcat' : GetBmCategory (OnEditSessionOpened m) groupId = some category := hcat
  obtain ⟨f1, f2, f3, f4, f5, f6, f7⟩ :=
    DeleteBmCategory_fields (OnEditSessionOpened m) groupId category hcat'
  refine ⟨f1, ?_⟩
  generalize (DeleteBmCategory (OnEditSessionOpened m) groupId).2 = x at f2 f3 f4 f5 f6 f7
  have hx1 : x.m_openedEditSessionsCount = 1 := by
    rw [f6]; simp [OnEditSessionOpened, h0]
  have f2' : x.m_changesTracker =
      (category.m_tracks.foldl MarksChangesTracker.OnDeleteLine
        (category.m_userMarks.foldl MarksChangesTracker.OnDeleteMark
          m.m_changesTracker)).OnDeleteGroup groupId := f2
  have f3' : x.m_bookmarks = category.m_userMarks.foldl Store.erase m.m_bookmarks := f3
  have f4' : x.m_tracks = category.m_tracks.foldl Store.erase m.m_tracks := f4
  have f7' : x.rendererLog = m.rendererLog := f7
  clear f2 f3 f4 f6 f7 hcat'
  obtain ⟨_, hm1, _, hm3, _, hm5, _⟩ :=
    foldl_OnDeleteMark category.m_userMarks m.m_changesTracker hmarks
  have hlines' : ∀ id ∈ category.m_tracks, id ∉
      (category.m_userMarks.foldl MarksChangesTracker.OnDeleteMark
        m.m_changesTracker).m_createdLines := by
    intro id hid
    rw [hm3]
    exact hlines id hid
  obtain ⟨hl1, _, _, hl4, hl5, _⟩ := foldl_OnDeleteLine category.m_tracks _ hlines'
  have hg' : groupId ∉ (category.m_tracks.foldl MarksChangesTracker.OnDeleteLine
      (category.m_userMarks.foldl MarksChangesTracker.OnDeleteMark
        m.m_changesTracker)).m_createdGroups := by
    rw [hl5, hm5]
    exact hg
  generalize category.m_tracks.foldl MarksChangesTracker.OnDeleteLine
      (category.m_userMarks.foldl MarksChangesTracker.OnDeleteMark m.m_changesTracker) = tr
    at f2' hl1 hl4 hg'
  have hdel : tr.OnDeleteGroup groupId =
      { tr with m_dirtyGroups := tr.m_dirtyGroups.erase groupId,
                m_removedGroups := insert groupId tr.m_removedGroups } := by
    simp [MarksChangesTracker.OnDeleteGroup, hg']
  obtain ⟨d, hd, _, hdm, _, hdl, hdg, _⟩ :=
    NotifyChanges_log { x with m_openedEditSessionsCount := 0 }
  have hdm' : d.m_removedMarks = x.m_changesTracker.m_removedMarks := hdm
  have hdl' : d.m_removedLines = x.m_changesTracker.m_removedLines := hdl
  have hdg' : d.m_removedGroups = x.m_changesTracker.m_removedGroups := hdg
  have hd' : (NotifyChanges { x with m_openedEditSessionsCount := 0 }).rendererLog
      = x.rendererLog ++ [d] := hd
  have hb : (NotifyChanges { x with m_openedEditSessionsCount := 0 }).m_bookmarks
      = x.m_bookmarks := rfl
  have htk : (NotifyChanges { x with m_openedEditSessionsCount := 0 }).m_tracks
      = x.m_tracks := rfl
  have hc : ∀ e ∈ (NotifyChanges { x with m_openedEditSessionsCount := 0 }).m_categories,
      ∃ e0 ∈ x.m_categories, e.1 = e0.1 := by
    intro e he
    simp only [NotifyChanges, List.mem_map] at he
    obtain ⟨e0, he0, rfl⟩ := he
    exact ⟨e0, he0, rfl⟩
  refine ⟨NotifyChanges { x with m_openedEditSessionsCount := 0 }, d,
    OnEditSessionClosed_last x hx1, by rw [hd', f7'], ?_, ?_, ?_, ?_⟩
  · rw [MarksChangesTracker.GetRemovedGroupIds, hdg', f2', hdel]
    exact Finset.mem_insert_self _ _
  · intro id hid
    refine ⟨?_, ?_⟩
    · rw [MarksChangesTracker.GetRemovedMarkIds, hdm', f2', hdel]
      show id ∈ tr.m_removedMarks
      rw [hl4]
      exact hm1 id hid
    · rw [GetBookmark, hb, f3']
      exact Store.find_foldl_erase _ _ _ hid
  · intro id hid
    refine ⟨?_, ?_⟩
    · rw [MarksChangesTracker.GetRemovedLineIds, hdl', f2', hdel]
      exact hl1 id hid
    · rw [GetTrack, htk, f4']
      exact Store.find_foldl_erase _ _ _ hid
  · rw [GetBmCategory]
    apply Store.find_eq_none_of_forall
    intro e he
    obtain ⟨e0, he0, heq⟩ := hc e he
    rw [f5] at he0
    simp only [Store.erase, List.mem_filter, decide_eq_true_eq] at he0
    rw [heq]
    exact he0.2

/-- C8. Deleting a category.  Between sessions (counter zero, tracker reset by the last
flush), for every category `g` and whatever bookmarks and tracks it contains: opening a
session, `DeleteBmCategory(g)` and closing the session deliver one view in which `g` is in
the removed-group set, every mark identifier `g` contained is in the removed-mark set and
every track identifier it contained is in the removed-line set; afterwards `GetBookmark`
and `GetTrack` on those identifiers, and the lookup of `g`, give the not-found result. -/
theorem delete_category_diff (m : Manager) (groupId : MarkGroupID)
    (category : BookmarkCategory)
    (h0 : m.m_openedEditSessionsCount = 0)
    (ht : m.m_changesTracker = MarksChangesTracker.init)
    (hcat : GetBmCategory m groupId = some category) :
    (DeleteBmCategory (OnEditSessionOpened m) groupId).1 = true
    ∧ ∃ m' d,
        OnEditSessionClosed (DeleteBmCategory (OnEditSessionOpened m) groupId).2 = some m'
        ∧ m'.rendererLog = m.rendererLog ++ [d]
        ∧ groupId ∈ d.GetRemovedGroupIds
        ∧ (∀ id ∈ category.m_userMarks,
            id ∈ d.GetRemovedMarkIds ∧ GetBookmark m' id = none)
        ∧ (∀ id ∈ category.m_tracks,
            id ∈ d.GetRemovedLineIds ∧ GetTrack m' id = none)
        ∧ GetBmCategory m' groupId = none :=
  delete_category_flushed m groupId category h0 hcat
    (by rw [ht]; simp [MarksChangesTracker.init])
    (by rw [ht]; simp [MarksChangesTracker.init])
    (by rw [ht]; simp [MarksChangesTracker.init])

/-- C8 at the scenario of the design document: a category with two bookmarks and one
track. -/
theorem delete_category_diff_witness :
    (DeleteBmCategory (OnEditSessionOpened tripManager) 7).1 = true
    ∧ ∃ m' d,
        OnEditSessionClosed (DeleteBmCategory (OnEditSessionOpened tripManager) 7).2 = some m'
        ∧ m'.rendererLog = tripManager.rendererLog ++ [d]
        ∧ 7 ∈ d.GetRemovedGroupIds
        ∧ (∀ id ∈ tripCategory.m_userMarks,
            id ∈ d.GetRemovedMarkIds ∧ GetBookmark m' id = none)
        ∧ (∀ id ∈ tripCategory.m_tracks,
            id ∈ d.GetRemovedLineIds ∧ GetTrack m' id = none)
        ∧ GetBmCategory m' 7 = none :=
  delete_category_diff tripManager 7 tripCategory rfl rfl rfl

theorem Store.mem_of_find {β : Type} (s : List (Nat × β)) (key : Nat) (v : β)
    (h : Store.find s key = some v) : (key, v) ∈ s := by
  induction s with
  | nil => simp [Store.find] at h
  | cons e rest ih =>
      by_cases he : e.1 = key
      · simp only [Store.find, if_pos he, Option.some.injEq] at h
        have : e = (key, v) := by
          cases e
          simp only at he h
          rw [he, h]
        rw [this]
        exact List.mem_cons_self _ _
      · simp only [Store.find, if_neg he] at h
        exact List.mem_cons_of_mem _ (ih h)

theorem Store.find_modify_self {β : Type} (s : List (Nat × β)) (key : Nat) (f : β → β) :
    Store.find (Store.modify s key f) key = (Store.find s key).map f := by
  induction s with
  | nil => rfl
  | cons e rest ih =>
      by_cases he : e.1 = key
      · simp [Store.modify, Store.find, he]
      · have ih' : Store.find (List.map (fun e => if e.1 = key then (e.1, f e.2) else e) rest)
            key = (Store.find rest key).map f := ih
        simp [Store.modify, Store.find, he, ih']

theorem Store.find_map_values {β γ : Type} (s : List (Nat × β)) (h : Nat × β → γ)
    (key : Nat) :
    Store.find (s.map (fun e => (e.1, h e))) key
      = (Store.find s key).map (fun v => h (key, v)) := by
  induction s with
  | nil => rfl
  | cons e rest ih =>
      by_cases he : e.1 = key
      · obtain ⟨k, v⟩ := e
        simp only at he
        subst he
        simp [Store.find]
      · simp [Store.find, he, ih]

/-- The flush changes neither the membership nor the visibility nor the name of a
category. -/
theorem GetBmCategory_NotifyChanges (m : Manager) (groupId : MarkGroupID) :
    ∃ (file : BookmarkCategory → Option String) (dirty : BookmarkCategory → Bool),
      GetBmCategory (NotifyChanges m) groupId =
      (GetBmCategory m groupId).map
        (fun c => { c with m_file := file c, m_isDirty := dirty c }) := by
  refine ⟨fun c =>
      if groupId ∈ categoriesToSave m
          (if m.m_changesTracker.CheckChanges then
            CollectDirtyGroups m m.m_changesTracker.m_dirtyGroups
           else m.m_changesTracker.m_dirtyGroups)
      then some (c.m_file.getD (firstFileName c)) else c.m_file,
    fun c =>
      if groupId ∈ (if m.m_changesTracker.CheckChanges then
            CollectDirtyGroups m m.m_changesTracker.m_dirtyGroups
           else m.m_changesTracker.m_dirtyGroups)
      then false else c.m_isDirty, ?_⟩
  simp only [GetBmCategory, NotifyChanges]
  rw [Store.find_map_values]
  by_cases hch : m.m_changesTracker.CheckChanges = true
  · simp only [hch, if_true]
  · simp only [hch]
    rfl

/-- The flush of a tracker that recorded a change. -/
theorem NotifyChanges_changed (y : Manager) (h : y.m_changesTracker.CheckChanges = true) :
    (NotifyChanges y).rendererLog = y.rendererLog ++
        [{ y.m_changesTracker with
            m_dirtyGroups := CollectDirtyGroups y y.m_changesTracker.m_dirtyGroups }]
    ∧ (NotifyChanges y).saveLog = y.saveLog +
        (categoriesToSave y (CollectDirtyGroups y y.m_changesTracker.m_dirtyGroups)).val
    ∧ (NotifyChanges y).m_openedEditSessionsCount = y.m_openedEditSessionsCount := by
  simp only [NotifyChanges, h, if_true, and_self]

theorem mem_CollectDirtyGroups_of_category (y : Manager) (dirtyGroups : Finset MarkGroupID)
    (groupId : MarkGroupID) (c : BookmarkCategory) (hmem : (groupId, c) ∈ y.m_categories)
    (hdirty : c.m_isDirty = true) : groupId ∈ CollectDirtyGroups y dirtyGroups := by
  simp only [CollectDirtyGroups, Finset.mem_union, List.mem_toFinset, List.mem_map,
    List.mem_filter]
  exact Or.inr ⟨(groupId, c), ⟨hmem, hdirty⟩, rfl⟩

theorem attach_not_empty (l : UserMarkLayer) (markId : MarkID) :
    (l.AttachUserMark markId).IsEmpty = false := by
  simp only [UserMarkLayer.AttachUserMark, UserMarkLayer.IsEmpty]
  by_cases h : markId ∈ l.m_userMarks
  · simp only [h, if_true]
    cases hl : l.m_userMarks with
    | nil => rw [hl] at h; simp at h
    | cons a r => simp
  · simp [h]

/-- Closing the outermost session right after a bookmark was created in a category: `x` is
the state left by the creation, `m` the state before the session. -/
theorem close_after_create (m x : Manager) (groupId : MarkGroupID)
    (category : BookmarkCategory) (markId : MarkID)
    (hcat : GetBmCategory m groupId = some category)
    (hx1 : x.m_openedEditSessionsCount = 1)
    (hxt : x.m_changesTracker = MarksChangesTracker.init.OnAddMark markId)
    (hxc : x.m_categories = Store.modify m.m_categories groupId
      (fun c => { c with toUserMarkLayer := c.toUserMarkLayer.AttachUserMark markId }))
    (hxl : x.rendererLog = m.rendererLog) (hxs : x.saveLog = m.saveLog) :
    ∃ m' d, OnEditSessionClosed x = some m'
      ∧ m'.m_openedEditSessionsCount = 0
      ∧ m'.rendererLog = m.rendererLog ++ [d]
      ∧ groupId ∈ d.GetDirtyGroupIds
      ∧ d.GetCreatedMarkIds = {markId}
      ∧ IsCategoryEmpty m' groupId = some false
      ∧ Multiset.count groupId m'.saveLog = Multiset.count groupId m.saveLog + 1 := by
  have hyt : ({ x with m_openedEditSessionsCount := 0 } : Manager).m_changesTracker
      = MarksChangesTracker.init.OnAddMark markId := hxt
  have hcheck : ({ x with m_openedEditSessionsCount := 0 } : Manager).m_changesTracker.CheckChanges
      = true := by
    rw [hyt]
    simp [MarksChangesTracker.CheckChanges, MarksChangesTracker.OnAddMark,
      MarksChangesTracker.init]
  have hyc : GetBmCategory ({ x with m_openedEditSessionsCount := 0 } : Manager) groupId
      = some { category with
          toUserMarkLayer := category.toUserMarkLayer.AttachUserMark markId } := by
    show Store.find x.m_categories groupId = _
    rw [hxc, Store.find_modify_self]
    have : Store.find m.m_categories groupId = some category := hcat
    rw [this]
    rfl
  have hne : (category.toUserMarkLayer.AttachUserMark markId).IsEmpty = false :=
    attach_not_empty _ _
  obtain ⟨hlog, hsave, hcount⟩ := NotifyChanges_changed _ hcheck
  have hdirty : groupId ∈ CollectDirtyGroups ({ x with m_openedEditSessionsCount := 0 } : Manager)
      ({ x with m_openedEditSessionsCount := 0 } : Manager).m_changesTracker.m_dirtyGroups :=
    mem_CollectDirtyGroups_of_category _ _ groupId _
      (Store.mem_of_find _ _ _ hyc) rfl
  have hclose := OnEditSessionClosed_last x hx1
  have hyl : ({ x with m_openedEditSessionsCount := 0 } : Manager).rendererLog
      = m.rendererLog := hxl
  have hys : ({ x with m_openedEditSessionsCount := 0 } : Manager).saveLog = m.saveLog := hxs
  have hy0 : ({ x with m_openedEditSessionsCount := 0 } : Manager).m_openedEditSessionsCount
      = 0 := rfl
  generalize ({ x with m_openedEditSessionsCount := 0 } : Manager) = y
    at hyt hcheck hyc hlog hsave hcount hdirty hclose hyl hys hy0
  refine ⟨NotifyChanges y,
    { y.m_changesTracker with
      m_dirtyGroups := CollectDirtyGroups y y.m_changesTracker.m_dirtyGroups },
    hclose, ?_, ?_, hdirty, ?_, ?_, ?_⟩
  · rw [hcount, hy0]
  · rw [hlog, hyl]
  · show y.m_changesTracker.m_createdMarks = {markId}
    rw [hyt]
    simp [MarksChangesTracker.OnAddMark, MarksChangesTracker.init]
  · obtain ⟨file, dirty, hget⟩ := GetBmCategory_NotifyChanges y groupId
    rw [IsCategoryEmpty, hget, hyc]
    simp only [Option.map_some', Option.some.injEq]
    exact hne
  · rw [hsave, Multiset.count_add, hys]
    congr 1
    apply Multiset.count_eq_one_of_mem (Finset.nodup _)
    rw [Finset.mem_val, categoriesToSave, Finset.mem_filter]
    refine ⟨hdirty, ?_⟩
    rw [hyc]
    simp only [Bool.or_eq_true, Bool.not_eq_true']
    exact Or.inr hne

/-- C9. Creating a bookmark in an empty category.  Between sessions (counter zero, tracker
reset by the last flush), for every empty category `g` and new bookmark identifier:
opening a session, `CreateBookmark(bm, g)` and closing the session deliver exactly one
view to the renderer, with `g` in its dirty-group set and exactly the new identifier in
its created-mark set; afterwards `IsCategoryEmpty(g)` is false and exactly one save was
issued for `g`. -/
theorem create_bookmark_scenario (m : Manager) (groupId : MarkGroupID)
    (category : BookmarkCategory) (bm : UserMark)
    (h0 : m.m_openedEditSessionsCount = 0)
    (ht : m.m_changesTracker = MarksChangesTracker.init)
    (hcat : GetBmCategory m groupId = some category)
    (hempty : category.IsEmpty = true)
    (hnew : Store.count m.m_bookmarks bm.m_id = 0) :
    IsCategoryEmpty m groupId = some true
    ∧ ∃ b m1 m' d, CreateBookmark (OnEditSessionOpened m) bm groupId = some (b, m1)
        ∧ OnEditSessionClosed m1 = some m'
        ∧ m'.m_openedEditSessionsCount = 0
        ∧ m'.rendererLog = m.rendererLog ++ [d]
        ∧ groupId ∈ d.GetDirtyGroupIds
        ∧ d.GetCreatedMarkIds = {bm.m_id}
        ∧ IsCategoryEmpty m' groupId = some false
        ∧ Multiset.count groupId m'.saveLog = Multiset.count groupId m.saveLog + 1 := by
  refine ⟨by simp [IsCategoryEmpty, hcat, hempty], ?_⟩
  have hcat' : GetBmCategory (OnEditSessionOpened m) groupId = some category := hcat
  have hnew' : Store.count (OnEditSessionOpened m).m_bookmarks bm.m_id = 0 := hnew
  have hcb : CreateBookmark (OnEditSessionOpened m) bm groupId = some
      ({ toUserMark := bm, m_groupId := groupId },
        { OnEditSessionOpened m with
          m_bookmarks := Store.emplace m.m_bookmarks bm.m_id
            { toUserMark := bm, m_groupId := groupId },
          m_changesTracker := m.m_changesTracker.OnAddMark bm.m_id,
          m_categories := Store.modify m.m_categories groupId
            (fun c => { c with
              toUserMarkLayer := c.toUserMarkLayer.AttachUserMark bm.m_id }) }) := by
    simp only [CreateBookmark, hnew', hcat']
    rfl
  obtain ⟨m', d, hrest⟩ := close_after_create m
    { OnEditSessionOpened m with
      m_bookmarks := Store.emplace m.m_bookmarks bm.m_id
        { toUserMark := bm, m_groupId := groupId },
      m_changesTracker := m.m_changesTracker.OnAddMark bm.m_id,
      m_categories := Store.modify m.m_categories groupId
        (fun c => { c with
          toUserMarkLayer := c.toUserMarkLayer.AttachUserMark bm.m_id }) }
    groupId category bm.m_id hcat (by simp [OnEditSessionOpened, h0])
    (by rw [← ht]) rfl rfl rfl
  exact ⟨_, _, m', d, hcb, hrest⟩

/-- C9 at the scenario of the design document: the empty category "Trip" and the new
bookmark 100. -/
theorem create_bookmark_scenario_witness :
    IsCategoryEmpty emptyTripManager 7 = some true
    ∧ ∃ b m1 m' d,
        CreateBookmark (OnEditSessionOpened emptyTripManager)
          { m_id := 100, m_type := 0, m_class := 1 } 7 = some (b, m1)
        ∧ OnEditSessionClosed m1 = some m'
        ∧ m'.m_openedEditSessionsCount = 0
        ∧ m'.rendererLog = emptyTripManager.rendererLog ++ [d]
        ∧ 7 ∈ d.GetDirtyGroupIds
        ∧ d.GetCreatedMarkIds = {100}
        ∧ IsCategoryEmpty m' 7 = some false
        ∧ Multiset.count 7 m'.saveLog = Multiset.count 7 emptyTripManager.saveLog + 1 :=
  create_bookmark_scenario emptyTripManager 7 emptyTrip
    { m_id := 100, m_type := 0, m_class := 1 } rfl rfl rfl rfl rfl

/-! ## Cloud restore: proofs -/

/-- C10. State-machine guard of cloud restore.  `ApplyCloudRestoring` is accepted exactly
in phase `FilesPrepared` and changes nothing in any other phase; in particular, called in
phase `Idle` it is rejected, the phase stays `Idle` and every category (its name,
visibility and membership) is as before. -/
theorem cloud_restore_guard (m : Manager) (hidle : m.m_cloudPhase = CloudPhase.Idle) :
    (ApplyCloudRestoring m).1 = false
    ∧ (ApplyCloudRestoring m).2.m_cloudPhase = CloudPhase.Idle
    ∧ (ApplyCloudRestoring m).2.m_categories = m.m_categories
    ∧ (∀ g, GetBmCategory (ApplyCloudRestoring m).2 g = GetBmCategory m g)
    ∧ (ApplyCloudRestoring m).2 = m
    ∧ (∀ m2 : Manager,
        ((ApplyCloudRestoring m2).1 = true ↔ m2.m_cloudPhase = CloudPhase.FilesPrepared)
        ∧ (m2.m_cloudPhase ≠ CloudPhase.FilesPrepared → (ApplyCloudRestoring m2).2 = m2)
        ∧ (m2.m_cloudPhase = CloudPhase.FilesPrepared →
            (ApplyCloudRestoring m2).2.m_cloudPhase = CloudPhase.Idle
            ∧ (ApplyCloudRestoring m2).2.m_preparedFiles = [])) := by
  have hrej : ApplyCloudRestoring m = (false, m) := by
    simp [ApplyCloudRestoring, hidle]
  refine ⟨by rw [hrej], by rw [hrej]; exact hidle, by rw [hrej], fun g => by rw [hrej],
    by rw [hrej], ?_⟩
  intro m2
  by_cases h : m2.m_cloudPhase = CloudPhase.FilesPrepared
  · refine ⟨by simp [ApplyCloudRestoring, h], fun hne => absurd h hne, fun _ => ?_⟩
    simp [ApplyCloudRestoring, h]
  · exact ⟨by simp [ApplyCloudRestoring, h], fun _ => by simp [ApplyCloudRestoring, h],
      fun hp => absurd hp h⟩

/-- C10 at a concrete state: phase `Idle`, one category with contents. -/
theorem cloud_restore_guard_witness :
    (ApplyCloudRestoring tripManager).1 = false
    ∧ (ApplyCloudRestoring tripManager).2.m_cloudPhase = CloudPhase.Idle
    ∧ (ApplyCloudRestoring tripManager).2.m_categories = [(7, tripCategory)] :=
  have h := cloud_restore_guard tripManager rfl
  ⟨h.1, h.2.1, h.2.2.1⟩

/-! ## The operations are mutations in the sense of the session events -/

/-- After a flush the change tracker is in its reset state: a manager whose counter is
zero after a session has an empty tracker. -/
theorem NotifyChanges_tracker (m : Manager) :
    (NotifyChanges m).m_changesTracker = MarksChangesTracker.init := by
  simp [NotifyChanges, MarksChangesTracker.ResetChanges, MarksChangesTracker.init]

/-- The mark operations act on the change tracker as the corresponding tracker call, and
touch neither the counter nor the renderer log: they are mutations in the sense of
`SessionEvent.mutation`. -/
theorem mark_operations_are_mutations (derives : MarkClass → MarkClass → Bool)
    (m : Manager) (UserMarkT : MarkClass) :
    (∀ mark r, CreateUserMark m mark = some r →
        r.2.m_changesTracker = (TrackerCall.addMark mark.m_id).apply m.m_changesTracker
        ∧ r.2.m_openedEditSessionsCount = m.m_openedEditSessionsCount
        ∧ r.2.rendererLog = m.rendererLog)
    ∧ (∀ markId r, GetMarkForEdit derives m UserMarkT markId = some r →
        r.2.m_changesTracker = (TrackerCall.updateMark markId).apply m.m_changesTracker
        ∧ r.2.m_openedEditSessionsCount = m.m_openedEditSessionsCount
        ∧ r.2.rendererLog = m.rendererLog)
    ∧ (∀ markId m1, DeleteUserMark m markId = some m1 →
        m1.m_changesTracker = (TrackerCall.deleteMark markId).apply m.m_changesTracker
        ∧ m1.m_openedEditSessionsCount = m.m_openedEditSessionsCount
        ∧ m1.rendererLog = m.rendererLog) := by
  refine ⟨?_, ?_, ?_⟩
  · intro mark r h
    simp only [CreateUserMark] at h
    split_ifs at h
    simp only [Option.some.injEq] at h
    subst h
    exact ⟨rfl, rfl, rfl⟩
  · intro markId r h
    simp only [GetMarkForEdit, GetUserMarkForEdit] at h
    cases hm : GetUserMark m markId with
    | none => simp [hm, dynamicCast] at h
    | some mk =>
        simp only [hm, dynamicCast] at h
        split_ifs at h
        simp only [Option.some.injEq] at h
        subst h
        exact ⟨rfl, rfl, rfl⟩
  · intro markId m1 h
    simp only [DeleteUserMark] at h
    cases hf : Store.find m.m_userMarks markId with
    | none => simp [hf] at h
    | some mk =>
        simp only [hf, Option.some.injEq] at h
        subst h
        exact ⟨rfl, rfl, rfl⟩

/-! ## `CreateUserMark`, `DeleteUserMarks` and the constructed state: proofs -/

theorem Store.find_eq_none_of_count {β : Type} (s : List (Nat × β)) (key : Nat)
    (h : Store.count s key = 0) : Store.find s key = none := by
  unfold Store.count at h
  cases hf : Store.find s key with
  | none => rfl
  | some v => rw [hf] at h; simp at h

theorem Store.find_append_single {β : Type} (s : List (Nat × β)) (key k : Nat) (v : β) :
    Store.find (s ++ [(key, v)]) k =
      match Store.find s k with
      | some w => some w
      | none => if key = k then some v else none := by
  induction s with
  | nil => simp [Store.find]
  | cons e rest ih =>
      by_cases he : e.1 = k
      · simp [Store.find, he]
      · simp only [List.cons_append, Store.find, if_neg he]
        exact ih

theorem Store.find_emplace_new {β : Type} (s : List (Nat × β)) (key : Nat) (v : β)
    (hnew : Store.find s key = none) :
    Store.find (Store.emplace s key v) key = some v
    ∧ ∀ k, k ≠ key → Store.find (Store.emplace s key v) k = Store.find s k := by
  simp only [Store.emplace, hnew]
  constructor
  · rw [Store.find_append_single, hnew]
    simp
  · intro k hk
    rw [Store.find_append_single]
    have hk' : ¬ key = k := fun e => hk e.symm
    cases Store.find s k with
    | none => simp [hk']
    | some w => rfl

theorem modifyAt_length {α : Type} (f : α → α) (i : Nat) (l : List α) :
    (modifyAt f i l).length = l.length := by
  induction l generalizing i with
  | nil => cases i <;> rfl
  | cons a rest ih =>
      cases i with
      | zero => rfl
      | succ n => simp [modifyAt, ih]

theorem modifyAt_getElem?_self {α : Type} (f : α → α) (i : Nat) (l : List α) :
    (modifyAt f i l)[i]? = (l[i]?).map f := by
  induction l generalizing i with
  | nil => cases i <;> rfl
  | cons a rest ih =>
      cases i with
      | zero => simp [modifyAt]
      | succ n => simpa [modifyAt] using ih n

theorem modifyAt_getElem?_other {α : Type} (f : α → α) (i j : Nat) (l : List α)
    (hij : j ≠ i) : (modifyAt f i l)[j]? = l[j]? := by
  induction l generalizing i j with
  | nil => cases i <;> rfl
  | cons a rest ih =>
      cases i with
      | zero =>
          cases j with
          | zero => exact absurd rfl hij
          | succ k => simp [modifyAt]
      | succ n =>
          cases j with
          | zero => simp [modifyAt]
          | succ k =>
              have hk : k ≠ n := fun e => hij (by rw [e])
              simpa [modifyAt] using ih n k hk

/-- C12. `CreateUserMark<UserMarkT>(pt)`, called when the identifier of the new mark is not
yet a key of `m_userMarks` and its mark type is below the number of user-mark layers:
both assertions hold and the call returns the mark; (1) the mark is stored under its
identifier and every other entry of `m_userMarks` is as before; (2) the change tracker is
the old one after one `OnAddMark` of that identifier, which is in the created set exactly
once; (3) the layer whose index is the mark type is the old one after `AttachUserMark`
of the identifier and contains it, every other layer and every category is as before. -/
theorem create_user_mark (m : Manager) (mark : UserMark)
    (hnew : Store.count m.m_userMarks mark.m_id = 0)
    (htype : mark.m_type < m.m_userMarkLayers.length) :
    ∃ m' layer, CreateUserMark m mark = some (mark, m')
      ∧ Store.find m'.m_userMarks mark.m_id = some mark
      ∧ (∀ k, k ≠ mark.m_id → Store.find m'.m_userMarks k = Store.find m.m_userMarks k)
      ∧ m'.m_changesTracker = m.m_changesTracker.OnAddMark mark.m_id
      ∧ Multiset.count mark.m_id m'.m_changesTracker.GetCreatedMarkIds.val = 1
      ∧ m.m_userMarkLayers[mark.m_type]? = some layer
      ∧ m'.m_userMarkLayers[mark.m_type]? = some (layer.AttachUserMark mark.m_id)
      ∧ mark.m_id ∈ (layer.AttachUserMark mark.m_id).m_userMarks
      ∧ m'.m_userMarkLayers.length = m.m_userMarkLayers.length
      ∧ (∀ g, g ≠ mark.m_type → m'.m_userMarkLayers[g]? = m.m_userMarkLayers[g]?)
      ∧ m'.m_categories = m.m_categories := by
  have hfind := Store.find_eq_none_of_count _ _ hnew
  obtain ⟨h1, h2⟩ := Store.find_emplace_new m.m_userMarks mark.m_id mark hfind
  have hlayer : m.m_userMarkLayers[mark.m_type]?
      = some (m.m_userMarkLayers[mark.m_type]) := List.getElem?_eq_getElem htype
  refine ⟨{ m with
      m_userMarks := Store.emplace m.m_userMarks mark.m_id mark,
      m_changesTracker := m.m_changesTracker.OnAddMark mark.m_id,
      m_userMarkLayers :=
        modifyAt (fun l => l.AttachUserMark mark.m_id) mark.m_type m.m_userMarkLayers },
    m.m_userMarkLayers[mark.m_type], ?_, h1, h2, rfl, ?_, hlayer, ?_, ?_, ?_, ?_, rfl⟩
  · simp only [CreateUserMark, hnew, htype]
    simp
  · apply Multiset.count_eq_one_of_mem (Finset.nodup _)
    simp [MarksChangesTracker.GetCreatedMarkIds, MarksChangesTracker.OnAddMark]
  · show (modifyAt _ mark.m_type m.m_userMarkLayers)[mark.m_type]? = _
    rw [modifyAt_getElem?_self, hlayer]
    rfl
  · simp only [UserMarkLayer.AttachUserMark]
    split_ifs with h
    · exact h
    · exact List.mem_cons_self _ _
  · exact modifyAt_length _ _ _
  · intro g hg
    exact modifyAt_getElem?_other _ _ _ _ hg

/-- C12 at a concrete state: a mark of type 1 and identifier 5 created in a manager with
two layers that already stores mark 1. -/
theorem create_user_mark_witness :
    ∃ m' layer, CreateUserMark oneMark { m_id := 5, m_type := 1, m_class := 3 }
        = some ({ m_id := 5, m_type := 1, m_class := 3 }, m')
      ∧ Store.find m'.m_userMarks 5 = some { m_id := 5, m_type := 1, m_class := 3 }
      ∧ (∀ k, k ≠ 5 → Store.find m'.m_userMarks k = Store.find oneMark.m_userMarks k)
      ∧ m'.m_changesTracker = oneMark.m_changesTracker.OnAddMark 5
      ∧ Multiset.count 5 m'.m_changesTracker.GetCreatedMarkIds.val = 1
      ∧ oneMark.m_userMarkLayers[1]? = some layer
      ∧ m'.m_userMarkLayers[1]? = some (layer.AttachUserMark 5)
      ∧ 5 ∈ (layer.AttachUserMark 5).m_userMarks
      ∧ m'.m_userMarkLayers.length = oneMark.m_userMarkLayers.length
      ∧ (∀ g, g ≠ 1 → m'.m_userMarkLayers[g]? = oneMark.m_userMarkLayers[g]?)
      ∧ m'.m_categories = oneMark.m_categories :=
  create_user_mark oneMark { m_id := 5, m_type := 1, m_class := 3 } (by decide) (by decide)

/-! ## The opened-session counter and `CreateUserMark`: proofs -/

/-- C4, amended.  `CreateUserMark` is not guarded by the opened-edit-session counter.
Whatever the counter is, zero included, it fails exactly when one of its own two
assertions fails (the identifier of the new mark is already a key of `m_userMarks`, or the
mark type is not below the number of user-mark layers); otherwise it returns the mark and
adds it to the entity store under its identifier.  Its result is the same for every value
of the counter, and it leaves the counter as it was.  In particular, invoked with the
counter at zero, a fresh identifier and a mark type below the number of layers, it fails
no assertion and the mark is in the store afterwards. -/
theorem mutation_guard (m : Manager) (mark : UserMark) :
    (CreateUserMark m mark = none
      ↔ (Store.count m.m_userMarks mark.m_id ≠ 0
          ∨ ¬ mark.m_type < m.m_userMarkLayers.length))
    ∧ (∀ k : Nat, CreateUserMark { m with m_openedEditSessionsCount := k } mark
        = (CreateUserMark m mark).map
            (fun r => (r.1, { r.2 with m_openedEditSessionsCount := k })))
    ∧ (∀ r, CreateUserMark m mark = some r →
        r.1 = mark
        ∧ Store.find r.2.m_userMarks mark.m_id = some mark
        ∧ r.2.m_openedEditSessionsCount = m.m_openedEditSessionsCount)
    ∧ (Store.count m.m_userMarks mark.m_id = 0 →
        mark.m_type < m.m_userMarkLayers.length →
        ∃ m', CreateUserMark { m with m_openedEditSessionsCount := 0 } mark = some (mark, m')
          ∧ Store.find m'.m_userMarks mark.m_id = some mark
          ∧ m'.m_openedEditSessionsCount = 0) := by
  refine ⟨?_, ?_, ?_, ?_⟩
  · by_cases h1 : Store.count m.m_userMarks mark.m_id = 0
    · by_cases h2 : mark.m_type < m.m_userMarkLayers.length
      · simp [CreateUserMark, h1, h2]
      · simp [CreateUserMark, h1, h2]
    · simp [CreateUserMark, h1]
  · intro k
    simp only [CreateUserMark]
    split_ifs <;> rfl
  · intro r hr
    by_cases h1 : Store.count m.m_userMarks mark.m_id = 0
    · by_cases h2 : mark.m_type < m.m_userMarkLayers.length
      · have hfind := Store.find_eq_none_of_count _ _ h1
        obtain ⟨hf, _⟩ := Store.find_emplace_new m.m_userMarks mark.m_id mark hfind
        simp only [CreateUserMark, h1, h2, ne_eq, not_true_eq_false, if_false, if_true,
          Option.some.injEq] at hr
        subst hr
        exact ⟨rfl, hf, rfl⟩
      · simp [CreateUserMark, h1, h2] at hr
    · simp [CreateUserMark, h1] at hr
  · intro hcount htype
    have hfind := Store.find_eq_none_of_count _ _ hcount
    obtain ⟨hf, _⟩ := Store.find_emplace_new m.m_userMarks mark.m_id mark hfind
    refine ⟨{ m with
        m_openedEditSessionsCount := 0,
        m_userMarks := Store.emplace m.m_userMarks mark.m_id mark,
        m_changesTracker := m.m_changesTracker.OnAddMark mark.m_id,
        m_userMarkLayers :=
          modifyAt (fun l => l.AttachUserMark mark.m_id) mark.m_type m.m_userMarkLayers },
      ?_, hf, rfl⟩
    simp only [CreateUserMark, hcount, htype]
    simp

/-- C4, as stated, fails: with the opened-session counter at zero `CreateUserMark` hits no
assertion and adds the mark to the entity store. -/
theorem mutation_guard_counterexample :
    twoLayers.m_openedEditSessionsCount = 0
    ∧ twoLayers.m_userMarks = []
    ∧ (CreateUserMark twoLayers { m_id := 1, m_type := 0, m_class := 0 }).map
        (fun r => r.2.m_userMarks)
        = some [(1, { m_id := 1, m_type := 0, m_class := 0 })] := by
  decide

theorem collectMarksToDelete_eq (derives : MarkClass → MarkClass → Bool) (m : Manager)
    (UserMarkT : MarkClass) (deletePredicate : UserMark → Bool) (ids acc : List MarkID)
    (hmarks : ∀ id ∈ ids, (GetMark derives m UserMarkT id).isSome = true) :
    collectMarksToDelete derives m UserMarkT deletePredicate ids acc
      = some (acc ++ ids.filter (markSatisfies derives m UserMarkT deletePredicate)) := by
  induction ids generalizing acc with
  | nil => simp [collectMarksToDelete]
  | cons markId rest ih =>
      have hrest : ∀ id ∈ rest, (GetMark derives m UserMarkT id).isSome = true :=
        fun id hid => hmarks id (List.mem_cons_of_mem _ hid)
      have hhead := hmarks markId (List.mem_cons_self _ _)
      cases hg : GetMark derives m UserMarkT markId with
      | none => rw [hg] at hhead; simp at hhead
      | some mark =>
          simp only [collectMarksToDelete, hg]
          rw [ih _ hrest]
          by_cases hp : deletePredicate mark = true
          · have hs : markSatisfies derives m UserMarkT deletePredicate markId = true := by
              simp [markSatisfies, hg, hp]
            simp [List.filter_cons, hs, hp]
          · have hs : markSatisfies derives m UserMarkT deletePredicate markId = false := by
              simp [markSatisfies, hg, hp]
            simp [List.filter_cons, hs, hp]

theorem deleteCollected_eq_foldlM (ids : List MarkID) (m : Manager) :
    deleteCollected m ids = ids.foldlM DeleteUserMark m := by
  induction ids generalizing m with
  | nil => rfl
  | cons markId rest ih =>
      simp only [deleteCollected, List.foldlM_cons]
      cases DeleteUserMark m markId with
      | none => rfl
      | some m1 => exact ih m1

/-- C13. `DeleteUserMarks<UserMarkT>(type, pred)` on a group whose marks all pass the
assertion of `GetMark<UserMarkT>`: the first loop evaluates `pred` on every mark of the
group in the state before any deletion and collects, in iteration order, exactly the
identifiers whose mark satisfies it; the call then is `DeleteUserMark` applied to the
collected identifiers, one after the other in that order, and to no other identifier.  An
identifier whose mark does not satisfy `pred` is not collected, and an identifier of a
duplicate-free group is collected at most once. -/
theorem delete_user_marks (derives : MarkClass → MarkClass → Bool) (m : Manager)
    (UserMarkT : MarkClass) (type : Nat) (deletePredicate : UserMark → Bool)
    (ids : List MarkID) (hids : GetUserMarkIds m type = some ids)
    (hmarks : ∀ id ∈ ids, (GetMark derives m UserMarkT id).isSome = true) :
    collectMarksToDelete derives m UserMarkT deletePredicate ids []
        = some (ids.filter (markSatisfies derives m UserMarkT deletePredicate))
    ∧ DeleteUserMarks derives m UserMarkT type deletePredicate
        = (ids.filter (markSatisfies derives m UserMarkT deletePredicate)).foldlM
            DeleteUserMark m
    ∧ (∀ id, id ∈ ids.filter (markSatisfies derives m UserMarkT deletePredicate)
        ↔ (id ∈ ids ∧ ∃ mark, GetMark derives m UserMarkT id = some mark
            ∧ deletePredicate mark = true))
    ∧ (ids.Nodup →
        (ids.filter (markSatisfies derives m UserMarkT deletePredicate)).Nodup)
    ∧ (ids.filter (markSatisfies derives m UserMarkT deletePredicate)).Sublist ids := by
  have hcollect := collectMarksToDelete_eq derives m UserMarkT deletePredicate ids [] hmarks
  simp only [List.nil_append] at hcollect
  refine ⟨hcollect, ?_, ?_, fun h => h.filter _, List.filter_sublist _⟩
  · simp only [DeleteUserMarks, hids, hcollect]
    exact deleteCollected_eq_foldlM _ m
  · intro id
    simp only [List.mem_filter, markSatisfies]
    constructor
    · rintro ⟨hin, hsat⟩
      refine ⟨hin, ?_⟩
      cases hg : GetMark derives m UserMarkT id with
      | none => rw [hg] at hsat; simp at hsat
      | some mark => rw [hg] at hsat; exact ⟨mark, rfl, hsat⟩
    · rintro ⟨hin, mark, hg, hp⟩
      exact ⟨hin, by rw [hg]; exact hp⟩

/-- C13 at a concrete state: layer 0 iterates 3, 2, 1 and the predicate holds for the marks
with an odd identifier; marks 3 and 1 are deleted, in that order, mark 2 is kept. -/
theorem delete_user_marks_witness :
    collectMarksToDelete derivesFromRoot threeMarks 3 (fun mark => mark.m_id % 2 == 1)
        [3, 2, 1] [] = some [3, 1]
    ∧ DeleteUserMarks derivesFromRoot threeMarks 3 0 (fun mark => mark.m_id % 2 == 1)
        = [3, 1].foldlM DeleteUserMark threeMarks
    ∧ (DeleteUserMarks derivesFromRoot threeMarks 3 0 (fun mark => mark.m_id % 2 == 1)).map
        (fun r => r.m_userMarks) = some [(2, { m_id := 2, m_type := 0, m_class := 3 })] :=
  have h := delete_user_marks derivesFromRoot threeMarks 3 0
    (fun mark => mark.m_id % 2 == 1) [3, 2, 1] rfl (by decide)
  ⟨h.1, h.2.1, by decide⟩

/-- C14. A manager as its members are initialised has no last-edited category: the stored
last-edited group identifier is `df::kInvalidMarkGroupId`, the stored last colour is
`PredefinedColor::Red`, the opened-edit-session counter is 0 and asynchronous loading is
not in progress (and bookmark loading is not finished, no first renderer notification is
pending, the loading queue is empty). -/
theorem constructed_state (kInvalidMarkGroupId lastGroupID : MarkGroupID) :
    (constructed kInvalidMarkGroupId lastGroupID).m_lastEditedGroupId = kInvalidMarkGroupId
    ∧ (constructed kInvalidMarkGroupId lastGroupID).m_lastColor = PredefinedColor.Red
    ∧ (constructed kInvalidMarkGroupId lastGroupID).m_openedEditSessionsCount = 0
    ∧ (constructed kInvalidMarkGroupId lastGroupID).m_asyncLoadingInProgress = false
    ∧ (constructed kInvalidMarkGroupId lastGroupID).m_loadBookmarksFinished = false
    ∧ (constructed kInvalidMarkGroupId lastGroupID).m_firstDrapeNotification = false
    ∧ (constructed kInvalidMarkGroupId lastGroupID).m_bookmarkLoadingQueue = [] :=
  ⟨rfl, rfl, rfl, rfl, rfl, rfl, rfl⟩

/-! ## Asynchronous loading pipeline: proofs -/

theorem fileCallback_ne (info : BookmarkLoaderInfo) (success : Bool) :
    fileCallback info success ≠ LoadingCallback.onStarted
    ∧ fileCallback info success ≠ LoadingCallback.onFinished := by
  cases success <;> simp [fileCallback]

theorem mem_zipWith_fileCallback (infos : List BookmarkLoaderInfo) (results : List Bool)
    (c : LoadingCallback) (hc : c ∈ List.zipWith fileCallback infos results) :
    c ≠ LoadingCallback.onStarted ∧ c ≠ LoadingCallback.onFinished := by
  induction infos generalizing results with
  | nil => simp at hc
  | cons info rest ih =>
      cases results with
      | nil => simp at hc
      | cons r rs =>
          simp only [List.zipWith_cons_cons, List.mem_cons] at hc
          rcases hc with rfl | hc
          · exact fileCallback_ne info r
          · exact ih rs hc

/-- While a queue drains: the events run to the end of the episode, every entry (those
pending and those enqueued meanwhile) gets its callback in queue order, then "finished"
fires, and no "started" fires. -/
theorem runLoading_drains (events : List LoadingEvent) (m : Manager)
    (hq : m.m_bookmarkLoadingQueue ≠ [])
    (hd : drains m.m_bookmarkLoadingQueue.length events = true) :
    ∃ m', runLoading m events = some m'
      ∧ m'.loadingLog = m.loadingLog
          ++ List.zipWith fileCallback (m.m_bookmarkLoadingQueue ++ enqueuedBy events)
              (resultsOf events)
          ++ [LoadingCallback.onFinished]
      ∧ (resultsOf events).length = (m.m_bookmarkLoadingQueue ++ enqueuedBy events).length
      ∧ m'.m_bookmarkLoadingQueue = []
      ∧ m'.m_asyncLoadingInProgress = false := by
  induction events generalizing m with
  | nil =>
      cases hm : m.m_bookmarkLoadingQueue with
      | nil => exact absurd hm hq
      | cons a q => rw [hm] at hd; simp [drains] at hd
  | cons e rest ih =>
      cases hm : m.m_bookmarkLoadingQueue with
      | nil => exact absurd hm hq
      | cons a q =>
          cases e with
          | enqueue filePath isTemporaryFile =>
              have hstep : LoadBookmark m filePath isTemporaryFile =
                  { m with m_bookmarkLoadingQueue := m.m_bookmarkLoadingQueue ++
                      [{ m_filename := filePath, m_isTemporaryFile := isTemporaryFile }] } := by
                simp [LoadBookmark, hm]
              rw [hm] at hd
              simp only [List.length_cons, drains] at hd
              obtain ⟨m', h1, h2, h3, h4, h5⟩ := ih
                { m with m_bookmarkLoadingQueue := m.m_bookmarkLoadingQueue ++
                    [{ m_filename := filePath, m_isTemporaryFile := isTemporaryFile }] }
                (by simp)
                (by simpa [hm] using hd)
              refine ⟨m', ?_, ?_, ?_, h4, h5⟩
              · simp only [runLoading, LoadingEvent.step, hstep]
                exact h1
              · rw [h2]
                simp [enqueuedBy, resultsOf, hm]
              · simp only [resultsOf, enqueuedBy]
                rw [h3]
                simp [hm]
          | loaded success =>
              rw [hm] at hd
              simp only [List.length_cons, drains] at hd
              cases q with
              | nil =>
                  have hrest : rest = [] := by
                    cases rest with
                    | nil => rfl
                    | cons e' r' => simp [drains] at hd
                  subst hrest
                  refine ⟨{ m with
                      m_bookmarkLoadingQueue := [],
                      m_asyncLoadingInProgress := false,
                      loadingLog := m.loadingLog ++ [fileCallback a success]
                        ++ [LoadingCallback.onFinished] }, ?_, ?_, ?_, rfl, rfl⟩
                  · simp [runLoading, LoadingEvent.step, OnFileLoaded, hm]
                  · simp [enqueuedBy, resultsOf, hm]
                  · simp [enqueuedBy, resultsOf, hm]
              | cons b q' =>
                  have hstep : OnFileLoaded m success = some
                      { m with
                        m_bookmarkLoadingQueue := b :: q',
                        loadingLog := m.loadingLog ++ [fileCallback a success] } := by
                    simp [OnFileLoaded, hm]
                  obtain ⟨m', h1, h2, h3, h4, h5⟩ := ih
                    { m with
                      m_bookmarkLoadingQueue := b :: q',
                      loadingLog := m.loadingLog ++ [fileCallback a success] }
                    (by simp) (by simpa using hd)
                  refine ⟨m', ?_, ?_, ?_, h4, h5⟩
                  · simp only [runLoading, LoadingEvent.step, hstep]
                    exact h1
                  · rw [h2]
                    simp [enqueuedBy, resultsOf, hm]
                  · simp only [resultsOf, hm, List.cons_append, List.length_cons, enqueuedBy]
                    simp only [List.cons_append, List.length_cons] at h3
                    omega

/-- C11. Loading episode.  From an idle pipeline with an empty queue, let a file be
enqueued and let any sequence of further enqueues and load results follow in which every
enqueue comes while the queue is draining and the last result empties the queue.  Then the
events run to the end, and the callbacks fired are: "started" once, then one per-file
callback (success or error, as the result says) for every enqueued file in the order of
enqueueing, then "finished" once, after the callback of the last file; the files enqueued
while the queue drains add no "started" and no "finished".  Afterwards the pipeline is idle
with an empty queue. -/
theorem loading_episode (m : Manager) (filePath : String) (isTemporaryFile : Bool)
    (events : List LoadingEvent)
    (hidle : m.m_asyncLoadingInProgress = false) (hempty : m.m_bookmarkLoadingQueue = [])
    (hd : drains 1 events = true) :
    ∃ m', runLoading m (LoadingEvent.enqueue filePath isTemporaryFile :: events) = some m'
      ∧ m'.loadingLog = m.loadingLog ++ [LoadingCallback.onStarted]
          ++ List.zipWith fileCallback
              (enqueuedBy (LoadingEvent.enqueue filePath isTemporaryFile :: events))
              (resultsOf events)
          ++ [LoadingCallback.onFinished]
      ∧ (resultsOf events).length
          = (enqueuedBy (LoadingEvent.enqueue filePath isTemporaryFile :: events)).length
      ∧ (∀ c ∈ List.zipWith fileCallback
              (enqueuedBy (LoadingEvent.enqueue filePath isTemporaryFile :: events))
              (resultsOf events),
          c ≠ LoadingCallback.onStarted ∧ c ≠ LoadingCallback.onFinished)
      ∧ m'.m_bookmarkLoadingQueue = []
      ∧ m'.m_asyncLoadingInProgress = false := by
  have hstep : LoadBookmark m filePath isTemporaryFile =
      { m with
        m_asyncLoadingInProgress := true,
        loadingLog := m.loadingLog ++ [LoadingCallback.onStarted],
        m_bookmarkLoadingQueue :=
          [{ m_filename := filePath, m_isTemporaryFile := isTemporaryFile }] } := by
    simp [LoadBookmark, hidle, hempty]
  obtain ⟨m', h1, h2, h3, h4, h5⟩ := runLoading_drains events
    { m with
      m_asyncLoadingInProgress := true,
      loadingLog := m.loadingLog ++ [LoadingCallback.onStarted],
      m_bookmarkLoadingQueue :=
        [{ m_filename := filePath, m_isTemporaryFile := isTemporaryFile }] }
    (by simp) (by simpa using hd)
  refine ⟨m', ?_, ?_, ?_, fun c hc => mem_zipWith_fileCallback _ _ c hc, h4, h5⟩
  · simp only [runLoading, LoadingEvent.step, hstep]
    exact h1
  · rw [h2]
    simp only [enqueuedBy, List.singleton_append]
  · rw [h3]
    simp only [enqueuedBy, List.singleton_append]

/-- C11 at the scenario of the design document: files A, B and C; B is enqueued before A is
loaded, C while B is loading (A succeeds, B fails, C succeeds). -/
theorem loading_episode_witness :
    ∃ m', runLoading blank
        (LoadingEvent.enqueue "A" false ::
          [LoadingEvent.enqueue "B" false, LoadingEvent.loaded true,
            LoadingEvent.enqueue "C" true, LoadingEvent.loaded false,
            LoadingEvent.loaded true]) = some m'
      ∧ m'.loadingLog =
          [LoadingCallback.onStarted, LoadingCallback.onFileSuccess "A" false,
            LoadingCallback.onFileError "B" false, LoadingCallback.onFileSuccess "C" true,
            LoadingCallback.onFinished]
      ∧ m'.m_bookmarkLoadingQueue = []
      ∧ m'.m_asyncLoadingInProgress = false :=
  have h := loading_episode blank "A" false
    [LoadingEvent.enqueue "B" false, LoadingEvent.loaded true,
      LoadingEvent.enqueue "C" true, LoadingEvent.loaded false, LoadingEvent.loaded true]
    rfl rfl (by decide)
  h.elim fun m' hm' => ⟨m', hm'.1, hm'.2.1.trans (by decide), hm'.2.2.2.2.1, hm'.2.2.2.2.2⟩

end BookmarkManager

namespace osmoh

namespace Time

/-! ## Hours and minutes of a `Time`: proofs -/

theorem GetHours_of_not_event (t : Time) (h : t.IsEvent = false) :
    t.GetHours = t.m_duration.tdiv 60 := by
  rw [GetHours]
  simp [h, IsEventOffset]

theorem GetMinutes_of_not_event (t : Time) (h : t.IsEvent = false) :
    t.GetMinutes = t.m_duration - 60 * t.GetHours := by
  rw [GetMinutes]
  simp [h, IsEventOffset]

theorem IsEvent_defaultConstructed : defaultConstructed.IsEvent = false := by
  simp [defaultConstructed, IsEvent]

theorem GetHours_of_event (t : Time) (h : t.IsEvent = true) : t.GetHours = 0 := by
  rw [GetHours]
  simp only [h, dite_true, GetEventTime]
  rw [GetHours_of_not_event _ IsEvent_defaultConstructed]
  simp [defaultConstructed]

theorem GetMinutes_of_event (t : Time) (h : t.IsEvent = true) : t.GetMinutes = 0 := by
  rw [GetMinutes]
  simp only [h, dite_true, GetEventTime]
  rw [GetMinutes_of_not_event _ IsEvent_defaultConstructed,
    GetHours_of_not_event _ IsEvent_defaultConstructed]
  simp [defaultConstructed]

/-- Division by 60 truncated toward zero, by the sign of the dividend. -/
theorem tdiv_sixty (d : Int) :
    (0 ≤ d → d.tdiv 60 = d / 60) ∧ (d < 0 → d.tdiv 60 = -((-d) / 60)) := by
  constructor
  · intro h
    exact Int.tdiv_eq_ediv h (by decide)
  · intro h
    have h1 : d.tdiv 60 = -((-d).tdiv 60) := by
      rw [Int.neg_tdiv, neg_neg]
    rw [h1, Int.tdiv_eq_ediv (by omega) (by decide)]

/-- C15. Hours and minutes of a `Time` that is not an event and stores `d` minutes, `d`
any integer: `GetHoursCount()` is `d / 60` truncated toward zero, `GetMinutesCount()` is
`d - 60 * GetHoursCount()`; hence hours times 60 plus minutes is `d`, the minutes are
strictly between -60 and 60, and they are zero or have the sign of `d`. -/
theorem hours_minutes_decomposition (t : Time) (hne : t.IsEvent = false) :
    t.GetHoursCount = t.m_duration.tdiv 60
    ∧ (0 ≤ t.m_duration → t.GetHoursCount = t.m_duration / 60)
    ∧ (t.m_duration < 0 → t.GetHoursCount = -((-t.m_duration) / 60))
    ∧ t.GetMinutesCount = t.m_duration - 60 * t.GetHoursCount
    ∧ t.GetHoursCount * 60 + t.GetMinutesCount = t.m_duration
    ∧ t.GetMinutesCount.natAbs < 60
    ∧ (t.GetMinutesCount = 0
        ∨ (0 < t.GetMinutesCount ∧ 0 < t.m_duration)
        ∨ (t.GetMinutesCount < 0 ∧ t.m_duration < 0)) := by
  have hH : t.GetHoursCount = t.m_duration.tdiv 60 := GetHours_of_not_event t hne
  have hM : t.GetMinutesCount = t.m_duration - 60 * t.GetHoursCount :=
    GetMinutes_of_not_event t hne
  obtain ⟨hpos, hneg⟩ := tdiv_sixty t.m_duration
  refine ⟨hH, fun h => by rw [hH, hpos h], fun h => by rw [hH, hneg h], hM, ?_, ?_, ?_⟩
  · omega
  · rw [hM, hH]
    rcases le_or_lt 0 t.m_duration with h | h
    · rw [hpos h]; omega
    · rw [hneg h]; omega
  · rw [hM, hH]
    rcases le_or_lt 0 t.m_duration with h | h
    · rw [hpos h]; omega
    · rw [hneg h]; omega

/-- C15 at a concrete `Time`: -125 minutes are -2 hours and -5 minutes. -/
theorem hours_minutes_decomposition_witness :
    GetHoursCount { m_event := EEvent.eNotEvent, m_duration := -125, m_state := 3 } = -2
    ∧ GetMinutesCount { m_event := EEvent.eNotEvent, m_duration := -125, m_state := 3 } = -5 :=
  have h := hours_minutes_decomposition
    { m_event := EEvent.eNotEvent, m_duration := -125, m_state := 3 } rfl
  ⟨h.1.trans (by decide), by rw [h.2.2.2.1, h.1]; decide⟩

end Time

end osmoh

namespace osmoh

namespace Time

/-! ## Classification and text of a `Time`: proofs -/

/-- C16. Classification of `Time(TMinutes(m))`, for every integer `m`: `IsMinutes()` is true
exactly when `m <= 60`; `IsHoursMinutes()`, `IsTime()` and `HasValue()` are true; the hours
flag is set exactly when `m > 60`.  So `Time(60 min)` is minutes-only although its
`GetHoursCount()` is 1 and its `GetMinutesCount()` is 0. -/
theorem minutes_classification (m : Int) :
    ((ofMinutes m).IsMinutes = true ↔ m ≤ 60)
    ∧ (ofMinutes m).IsHoursMinutes = true
    ∧ (ofMinutes m).IsTime = true
    ∧ (ofMinutes m).HasValue = true
    ∧ ((ofMinutes m).m_state &&& eHaveHours ≠ 0 ↔ 60 < m)
    ∧ (ofMinutes m).m_state &&& eHaveMinutes ≠ 0
    ∧ (ofMinutes m).IsEvent = false
    ∧ (ofMinutes m).m_duration = m
    ∧ (ofMinutes 60).IsMinutes = true
    ∧ (ofMinutes 60).GetHoursCount = 1
    ∧ (ofMinutes 60).GetMinutesCount = 0 := by
  have h60 : (ofMinutes 60).IsEvent = false := by decide
  have hH : (ofMinutes 60).GetHoursCount = 1 := by
    rw [GetHoursCount, GetHours_of_not_event _ h60]
    decide
  have hM : (ofMinutes 60).GetMinutesCount = 0 := by
    rw [GetMinutesCount, GetMinutes_of_not_event _ h60, GetHours_of_not_event _ h60]
    decide
  by_cases h : m > 60
  · have hs : ofMinutes m
        = { m_event := EEvent.eNotEvent, m_duration := 0 + m, m_state := 3 } := by
      simp only [ofMinutes, SetMinutes, defaultConstructed, eIsNotTime, eHaveMinutes,
        eHaveHours, mul_one, h, if_true]
      rfl
    rw [hs]
    refine ⟨?_, by simp [IsHoursMinutes, IsTime, HasValue, IsMinutes, IsEvent, eHaveHours, eHaveMinutes],
      by simp [IsHoursMinutes, IsTime, HasValue, IsMinutes, IsEvent, eHaveHours, eHaveMinutes],
      by simp [IsHoursMinutes, IsTime, HasValue, IsMinutes, IsEvent, eHaveHours, eHaveMinutes],
      ?_, by simp [IsHoursMinutes, IsTime, HasValue, IsMinutes, IsEvent, eHaveHours, eHaveMinutes],
      by simp [IsHoursMinutes, IsTime, HasValue, IsMinutes, IsEvent, eHaveHours, eHaveMinutes], by simp, by decide, hH, hM⟩
    · constructor
      · intro hc
        have hf : IsMinutes { m_event := EEvent.eNotEvent, m_duration := 0 + m, m_state := 3 }
            = false := by simp [IsHoursMinutes, IsTime, HasValue, IsMinutes, IsEvent, eHaveHours, eHaveMinutes]
        rw [hf] at hc
        exact absurd hc (by decide)
      · intro hc; omega
    · constructor
      · intro _; omega
      · intro _
        show (3 : Nat) &&& eHaveHours ≠ 0
        decide
  · have hs : ofMinutes m
        = { m_event := EEvent.eNotEvent, m_duration := 0 + m, m_state := 2 } := by
      simp only [ofMinutes, SetMinutes, defaultConstructed, eIsNotTime, eHaveMinutes,
        eHaveHours, mul_one, h, if_false]
      rfl
    rw [hs]
    refine ⟨?_, by simp [IsHoursMinutes, IsTime, HasValue, IsMinutes, IsEvent, eHaveHours, eHaveMinutes],
      by simp [IsHoursMinutes, IsTime, HasValue, IsMinutes, IsEvent, eHaveHours, eHaveMinutes],
      by simp [IsHoursMinutes, IsTime, HasValue, IsMinutes, IsEvent, eHaveHours, eHaveMinutes],
      ?_, by simp [IsHoursMinutes, IsTime, HasValue, IsMinutes, IsEvent, eHaveHours, eHaveMinutes],
      by simp [IsHoursMinutes, IsTime, HasValue, IsMinutes, IsEvent, eHaveHours, eHaveMinutes], by simp, by decide, hH, hM⟩
    · constructor
      · intro _; omega
      · intro _
        simp [IsHoursMinutes, IsTime, HasValue, IsMinutes, IsEvent, eHaveHours, eHaveMinutes]
    · constructor
      · intro hc
        have hf : (2 : Nat) &&& eHaveHours = 0 := by decide
        exact absurd hf hc
      · intro hc; omega

/-- C17. For every `Time` whose event is set, whatever its duration and state flags,
`GetHoursCount()` and `GetMinutesCount()` are 0: `GetHours` and `GetMinutes` take their
`IsEvent()` branch and return the hours and minutes of `GetEventTime()`, a default `Time`
with zero duration; the `IsEventOffset()` branch is behind it, and `IsEventOffset()` implies
`IsEvent()`. -/
theorem event_hours_minutes (t : Time) (h : t.IsEvent = true) :
    t.GetHoursCount = 0
    ∧ t.GetMinutesCount = 0
    ∧ t.GetHours = t.GetEventTime.GetHours
    ∧ t.GetMinutes = t.GetEventTime.GetMinutes
    ∧ t.GetEventTime = defaultConstructed
    ∧ (∀ t' : Time, t'.IsEventOffset = true → t'.IsEvent = true)
    ∧ (∀ d s, GetHoursCount { t with m_duration := d, m_state := s } = 0
        ∧ GetMinutesCount { t with m_duration := d, m_state := s } = 0) := by
  have hH := GetHours_of_event t h
  have hM := GetMinutes_of_event t h
  have hH0 : t.GetEventTime.GetHours = 0 := by
    rw [GetEventTime, GetHours_of_not_event _ IsEvent_defaultConstructed]
    simp [defaultConstructed]
  have hM0 : t.GetEventTime.GetMinutes = 0 := by
    rw [GetEventTime, GetMinutes_of_not_event _ IsEvent_defaultConstructed,
      GetHours_of_not_event _ IsEvent_defaultConstructed]
    simp [defaultConstructed]
  refine ⟨hH, hM, by rw [hH, hH0], by rw [hM, hM0], rfl, ?_, ?_⟩
  · intro t' ht'
    simp only [IsEventOffset, Bool.and_eq_true] at ht'
    exact ht'.1
  · intro d s
    have he : IsEvent { t with m_duration := d, m_state := s } = true := h
    exact ⟨GetHours_of_event _ he, GetMinutes_of_event _ he⟩

/-- C17 at a concrete `Time`: sunrise with a stored offset of 90 minutes and both flags. -/
theorem event_hours_minutes_witness :
    GetHoursCount { m_event := EEvent.eSunrise, m_duration := 90, m_state := 3 } = 0
    ∧ GetMinutesCount { m_event := EEvent.eSunrise, m_duration := 90, m_state := 3 } = 0 :=
  have h := event_hours_minutes
    { m_event := EEvent.eSunrise, m_duration := 90, m_state := 3 } rfl
  ⟨h.1, h.2.1⟩

theorem and_three_ne_zero_of_minutes (s : Nat) (h : s &&& 2 ≠ 0) : s &&& 3 ≠ 0 := by
  intro h3
  apply h
  have : s &&& 2 = (s &&& 3) &&& 2 := by
    rw [Nat.and_assoc]
    rfl
  rw [this, h3]
  rfl

theorem and_three_ne_zero_of_hours (s : Nat) (h : s &&& 1 ≠ 0) : s &&& 3 ≠ 0 := by
  intro h3
  apply h
  have : s &&& 1 = (s &&& 3) &&& 1 := by
    rw [Nat.and_assoc]
    rfl
  rw [this, h3]
  rfl

end Time

open Time

/-! ## Text written for a `Time`: proofs -/

/-- Digits only grow under `Nat.toDigitsCore`. -/
theorem toDigitsCore_length_ge (fuel n : Nat) (ds : List Char) :
    ds.length ≤ (Nat.toDigitsCore 10 fuel n ds).length := by
  induction fuel generalizing n ds with
  | zero => simp [Nat.toDigitsCore]
  | succ fuel ih =>
      simp only [Nat.toDigitsCore]
      split_ifs
      · simp
      · have := ih (n / 10) (Nat.digitChar (n % 10) :: ds)
        simp only [List.length_cons] at this
        omega

/-- With fuel left, `Nat.toDigitsCore` writes at least one digit. -/
theorem toDigitsCore_length_gt (fuel n : Nat) (ds : List Char) :
    ds.length + 1 ≤ (Nat.toDigitsCore 10 (fuel + 1) n ds).length := by
  simp only [Nat.toDigitsCore]
  split_ifs
  · simp
  · have := toDigitsCore_length_ge fuel (n / 10) (Nat.digitChar (n % 10) :: ds)
    simpa using this

/-- A number from 10 on has at least two decimal digits. -/
theorem repr_length_ge_two (n : Nat) (h : 10 ≤ n) : 2 ≤ (Nat.repr n).length := by
  have hne : ¬ n / 10 = 0 := by omega
  obtain ⟨k, rfl⟩ : ∃ k, n = k + 1 := ⟨n - 1, by omega⟩
  have h2 := toDigitsCore_length_gt k ((k + 1) / 10) [Nat.digitChar ((k + 1) % 10)]
  show 2 ≤ (Nat.toDigits 10 (k + 1)).asString.length
  simp only [Nat.toDigits, Nat.toDigitsCore, hne, if_false, List.asString]
  simpa using h2

/-- What `std::setw(2)` with fill character 0 writes, digit by digit: one zero in front of
a number below 10, the decimal digits alone from 10 on. -/
theorem writeWidth2_eq (n : Nat) :
    writeWidth2 n = (if n < 10 then "0" else "") ++ Nat.repr n := by
  by_cases h : n < 10
  · interval_cases n <;> decide
  · have hlen := repr_length_ge_two n (by omega)
    have h0 : 2 - (Nat.repr n).length = 0 := by omega
    simp only [writeWidth2, h0, h, if_false]
    rfl

/-- Two digits are written for every number below 100, a leading zero included. -/
theorem writeWidth2_length (n : Nat) (h : n < 100) : (writeWidth2 n).length = 2 := by
  interval_cases n <;> decide

/-- The minutes of a `Time` that is no event are below 60 in absolute value. -/
theorem minutes_natAbs_lt (t : Time) (hne : t.IsEvent = false) :
    t.GetMinutesCount.natAbs < 60 := by
  have hH : t.GetHours = t.m_duration.tdiv 60 := GetHours_of_not_event t hne
  have hM : t.GetMinutesCount = t.m_duration - 60 * t.GetHours :=
    GetMinutes_of_not_event t hne
  obtain ⟨hpos, hneg⟩ := tdiv_sixty t.m_duration
  rw [hM, hH]
  rcases le_or_lt 0 t.m_duration with h | h
  · rw [hpos h]; omega
  · rw [hneg h]; omega

/-- Text written for an event, with its offset when there is one, in terms of the name
that `operator<<` writes for the event. -/
theorem writeTime_of_event (t : Time) (h1 : t.IsEvent = true) :
    writeTime t = (if t.IsEventOffset then "(0+00:00)" else "")
      ++ writeEvent t.m_event ++ "00:00" := by
  have htime : t.IsTime = true := by simp [IsTime, h1]
  have hmin : t.IsMinutes = false := by simp [IsMinutes, h1]
  have hH : t.GetHoursCount = 0 := GetHours_of_event t h1
  have hM : t.GetMinutesCount = 0 := GetMinutes_of_event t h1
  have e1 : "(" ++ writeInt 0 ++ "+" ++ writeWidth2 0 ++ ":" ++ writeWidth2 0 ++ ")"
      = "(0+00:00)" := by decide
  have e2 : writeWidth2 0 ++ ":" ++ writeWidth2 0 = "00:00" := by decide
  simp only [writeTime, h1, htime, hmin, hH, hM, GetEvent, Bool.not_true, Bool.false_and,
    if_true, Int.natAbs_zero, lt_self_iff_false, if_false, e1, e2]
  simp

/-- C18. Text written by `operator<<` for a `Time`, character by character (decimal digits
are those of `Nat.repr`).  Neither a time nor an event: exactly `hh:mm`.  Not an event,
minutes flag only (`IsMinutes()`): the absolute value of `GetMinutesCount()` padded with a
zero to width 2, two characters.  Not an event, hours flag set: the absolute value of
`GetHoursCount()` padded with a zero to width 2, a colon, the absolute value of
`GetMinutesCount()` padded with a zero to width 2; no sign is written.  Event set: the
parenthesised offset `(0+00:00)` when `IsEventOffset()`, then the name of the event
(`sunrise`, `sunset`, `dawn`, `dusk`), then `00:00`, since the final hours-and-minutes
branch runs for events too. -/
theorem written_text (t : Time) :
    (t.IsTime = false → t.IsEvent = false → writeTime t = "hh:mm")
    ∧ (t.IsEvent = false → t.IsMinutes = true →
        writeTime t = (if t.GetMinutesCount.natAbs < 10 then "0" else "")
            ++ Nat.repr t.GetMinutesCount.natAbs
        ∧ (writeTime t).length = 2)
    ∧ (t.IsEvent = false → t.m_state &&& eHaveHours ≠ 0 →
        writeTime t = (if t.GetHoursCount.natAbs < 10 then "0" else "")
            ++ Nat.repr t.GetHoursCount.natAbs ++ ":"
            ++ ((if t.GetMinutesCount.natAbs < 10 then "0" else "")
              ++ Nat.repr t.GetMinutesCount.natAbs))
    ∧ (t.m_event = EEvent.eSunrise →
        writeTime t = (if t.IsEventOffset then "(0+00:00)" else "") ++ "sunrise" ++ "00:00")
    ∧ (t.m_event = EEvent.eSunset →
        writeTime t = (if t.IsEventOffset then "(0+00:00)" else "") ++ "sunset" ++ "00:00")
    ∧ (t.m_event = EEvent.eDawn →
        writeTime t = (if t.IsEventOffset then "(0+00:00)" else "") ++ "dawn" ++ "00:00")
    ∧ (t.m_event = EEvent.eDusk →
        writeTime t = (if t.IsEventOffset then "(0+00:00)" else "") ++ "dusk" ++ "00:00")
    ∧ (t.IsEvent = true →
        (t.IsEventOffset = true ↔ t.m_state ≠ 0)
        ∧ (t.m_event = EEvent.eSunrise ∨ t.m_event = EEvent.eSunset
            ∨ t.m_event = EEvent.eDawn ∨ t.m_event = EEvent.eDusk)) := by
  refine ⟨?_, ?_, ?_, ?_, ?_, ?_, ?_, ?_⟩
  · intro h1 h2
    simp [writeTime, h1, h2]
  · intro h1 h2
    have hmin : t.m_state &&& 2 ≠ 0 := by
      simp only [IsMinutes, h1, eHaveMinutes, eHaveHours, Bool.not_false, Bool.true_and,
        Bool.and_eq_true, decide_eq_true_eq] at h2
      exact h2.1
    have htime : t.IsTime = true := by
      have h3 := and_three_ne_zero_of_minutes _ hmin
      have e3 : eHaveHours ||| eHaveMinutes = 3 := by decide
      simp [IsTime, IsHoursMinutes, h1, e3, h3]
    have hw : writeTime t = writeWidth2 t.GetMinutesCount.natAbs := by
      simp [writeTime, h1, h2, htime]
    refine ⟨by rw [hw, writeWidth2_eq], ?_⟩
    rw [hw]
    exact writeWidth2_length _ (by have := minutes_natAbs_lt t h1; omega)
  · intro h1 h2
    have hh : t.m_state &&& 1 ≠ 0 := h2
    have htime : t.IsTime = true := by
      have h3 := and_three_ne_zero_of_hours _ hh
      have e3 : eHaveHours ||| eHaveMinutes = 3 := by decide
      simp [IsTime, IsHoursMinutes, h1, e3, h3]
    have hd : decide (t.m_state &&& eHaveHours ≠ 0) = true := decide_eq_true h2
    have hmin : t.IsMinutes = false := by
      simp only [IsMinutes, hd, Bool.not_true, Bool.and_false]
    have hw : writeTime t = writeWidth2 t.GetHoursCount.natAbs ++ ":"
        ++ writeWidth2 t.GetMinutesCount.natAbs := by
      simp [writeTime, h1, htime, hmin]
    rw [hw, writeWidth2_eq, writeWidth2_eq]
  · intro he
    have h1 : t.IsEvent = true := by simp [IsEvent, he]
    rw [writeTime_of_event t h1, he]
    rfl
  · intro he
    have h1 : t.IsEvent = true := by simp [IsEvent, he]
    rw [writeTime_of_event t h1, he]
    rfl
  · intro he
    have h1 : t.IsEvent = true := by simp [IsEvent, he]
    rw [writeTime_of_event t h1, he]
    rfl
  · intro he
    have h1 : t.IsEvent = true := by simp [IsEvent, he]
    rw [writeTime_of_event t h1, he]
    rfl
  · intro h1
    have hne : t.m_event ≠ EEvent.eNotEvent := by simpa [IsEvent] using h1
    refine ⟨by simp [IsEventOffset, h1, eIsNotTime], ?_⟩
    cases he : t.m_event with
    | eNotEvent => exact absurd he hne
    | eSunrise => simp
    | eSunset => simp
    | eDawn => simp
    | eDusk => simp

/-- C18 at concrete values: no flag; 5 minutes; 125 and -125 minutes with both flags
(the sign is not written); 6000 minutes, three digits of hours; each of the four events
without an offset, and sunset with one. -/
theorem written_text_witness :
    writeTime { m_event := EEvent.eNotEvent, m_duration := 0, m_state := 0 } = "hh:mm"
    ∧ writeTime { m_event := EEvent.eNotEvent, m_duration := 5, m_state := 2 } = "05"
    ∧ writeTime { m_event := EEvent.eNotEvent, m_duration := 125, m_state := 3 } = "02:05"
    ∧ writeTime { m_event := EEvent.eNotEvent, m_duration := -125, m_state := 3 } = "02:05"
    ∧ writeTime { m_event := EEvent.eNotEvent, m_duration := 6000, m_state := 3 } = "100:00"
    ∧ writeTime { m_event := EEvent.eSunrise, m_duration := 0, m_state := 0 }
        = "sunrise00:00"
    ∧ writeTime { m_event := EEvent.eSunset, m_duration := 0, m_state := 0 }
        = "sunset00:00"
    ∧ writeTime { m_event := EEvent.eDawn, m_duration := 0, m_state := 0 } = "dawn00:00"
    ∧ writeTime { m_event := EEvent.eDusk, m_duration := 0, m_state := 0 } = "dusk00:00"
    ∧ writeTime { m_event := EEvent.eSunset, m_duration := 30, m_state := 2 }
        = "(0+00:00)sunset00:00" := by
  have hH : ∀ d s, GetHoursCount { m_event := EEvent.eNotEvent, m_duration := d, m_state := s }
      = d.tdiv 60 := fun d s => GetHours_of_not_event _ rfl
  have hM : ∀ d s, GetMinutesCount
      { m_event := EEvent.eNotEvent, m_duration := d, m_state := s }
      = d - 60 * d.tdiv 60 := fun d s => by
    have h1 := GetMinutes_of_not_event
      { m_event := EEvent.eNotEvent, m_duration := d, m_state := s } rfl
    have h2 := GetHours_of_not_event
      { m_event := EEvent.eNotEvent, m_duration := d, m_state := s } rfl
    rw [GetMinutesCount, h1, h2]
  refine ⟨(written_text _).1 rfl rfl, ?_, ?_, ?_, ?_, ?_, ?_, ?_, ?_, ?_⟩
  · rw [((written_text { m_event := EEvent.eNotEvent, m_duration := 5, m_state := 2 }).2.1
      rfl rfl).1, hM]
    decide
  · rw [(written_text { m_event := EEvent.eNotEvent, m_duration := 125, m_state := 3 }).2.2.1
      rfl (by decide), hM, hH]
    decide
  · rw [(written_text { m_event := EEvent.eNotEvent, m_duration := -125, m_state := 3 }).2.2.1
      rfl (by decide), hM, hH]
    decide
  · rw [(written_text { m_event := EEvent.eNotEvent, m_duration := 6000, m_state := 3 }).2.2.1
      rfl (by decide), hM, hH]
    decide
  · exact ((written_text { m_event := EEvent.eSunrise, m_duration := 0, m_state := 0
      }).2.2.2.1 rfl).trans (by decide)
  · exact ((written_text { m_event := EEvent.eSunset, m_duration := 0, m_state := 0
      }).2.2.2.2.1 rfl).trans (by decide)
  · exact ((written_text { m_event := EEvent.eDawn, m_duration := 0, m_state := 0
      }).2.2.2.2.2.1 rfl).trans (by decide)
  · exact ((written_text { m_event := EEvent.eDusk, m_duration := 0, m_state := 0
      }).2.2.2.2.2.2.1 rfl).trans (by decide)
  · exact ((written_text { m_event := EEvent.eSunset, m_duration := 30, m_state := 2
      }).2.2.2.2.1 rfl).trans (by decide)

end osmoh
